import Mathlib

set_option maxRecDepth 200000
set_option maxHeartbeats 1600000

/-!
# Verification of the FerrumClient voxel meshing core

Shallow embedding of the parts of the repository exercised by the claims:

* `src/ferrum-meshing-cpu/src/binary_greedy.rs` — binary greedy CPU mesher
* `src/ferrum-world/src/compressed.rs`          — palette-compressed chunk store
* `src/ferrum-render/src/lighting.rs`           — light propagation and AO
* `src/ferrum-render/src/lod.rs`                — LOD majority-vote downsampler

Machine integers (`u32`, `u64`, `u8`, `usize`) are embedded as `Nat` with
explicit `% 2^w` / masking exactly where the Rust semantics truncate or wrap.
Fixed-size arrays are embedded either as bit-packed `Nat`s (matching the
source's own packed representations) or as functions from indices.
-/

/-! ## Binary greedy mesher: face-mask construction

From `binary_greedy.rs`.  A voxel slab `[u32; 32768]` is embedded as a
function `Nat → Nat` from the linear index `z*1024 + y*32 + x` to the block
id; in-bounds values are `< 2^32`. -/

/-- `voxel_at` from `binary_greedy.rs:7`: `voxels[z * CS2 + y * CS + x]`. -/
def voxel_at (voxels : Nat → Nat) (x y z : Nat) : Nat :=
  voxels (z * 1024 + y * 32 + x)

/-- Bitwise complement on a 32-bit word (`!col` on a Rust `u32`);
for `x < 2^32` this is the 32-bit one's complement. -/
def u32not (x : Nat) : Nat := (2 ^ 32 - 1) ^^^ x

/-- Opacity column along X (`opaque_x[z*CS + y]` of `build_face_masks`):
bit `i` is set iff `voxel_at voxels i y z ≠ 0`. -/
def colX (voxels : Nat → Nat) (y z : Nat) : Nat :=
  (List.range 32).foldl
    (fun acc x => if voxel_at voxels x y z ≠ 0 then acc ||| (1 <<< x) else acc) 0

/-- Opacity column along Y (`opaque_y[z*CS + x]`): bit `i` set iff
`voxel_at voxels x i z ≠ 0`. -/
def colY (voxels : Nat → Nat) (x z : Nat) : Nat :=
  (List.range 32).foldl
    (fun acc y => if voxel_at voxels x y z ≠ 0 then acc ||| (1 <<< y) else acc) 0

/-- Opacity column along Z (`opaque_z[y*CS + x]`): bit `i` set iff
`voxel_at voxels x y i ≠ 0`. -/
def colZ (voxels : Nat → Nat) (x y : Nat) : Nat :=
  (List.range 32).foldl
    (fun acc z => if voxel_at voxels x y z ≠ 0 then acc ||| (1 <<< z) else acc) 0

/-- `col & !(col << 1)` on `u32` (the mask the source stores for the
`+axis` faces, `binary_greedy.rs:66`).  The `u32` left shift truncates to
32 bits before the complement. -/
def maskSh1L (col : Nat) : Nat := col &&& u32not ((col <<< 1) % 2 ^ 32)

/-- `col & !(col >> 1)` on `u32` (the mask the source stores for the
`−axis` faces, `binary_greedy.rs:67`). -/
def maskSh1R (col : Nat) : Nat := col &&& u32not (col >>> 1)

/-- The six face-mask arrays of `build_face_masks`, as a function of
face index (0:+X, 1:−X, 2:+Y, 3:−Y, 4:+Z, 5:−Z), layer and row.
Layout per face (`binary_greedy.rs:79`): faces 0,1 use `layer=z, row=y`
columns along x; faces 2,3 use `layer=z, row=x` columns along y;
faces 4,5 use `layer=y, row=x` columns along z. -/
def faceMask (voxels : Nat → Nat) (face layer row : Nat) : Nat :=
  match face with
  | 0 => maskSh1L (colX voxels row layer)
  | 1 => maskSh1R (colX voxels row layer)
  | 2 => maskSh1L (colY voxels row layer)
  | 3 => maskSh1R (colY voxels row layer)
  | 4 => maskSh1L (colZ voxels row layer)
  | _ => maskSh1R (colZ voxels row layer)


/-! ## Binary greedy mesher: greedy merge

Embedding of `greedy_merge` / `merge_face` / `emit_quad` from
`binary_greedy.rs`.  The `forward_merged: [u8; 32]` scratch array is
embedded as a single `Nat` holding 32 little-endian 8-bit fields.  The
inner `while bits != 0 { … }` loop clears at least one bit of the 32-bit
`bits` word per iteration, so running it with fuel 32 is exact. -/

/-- `Face` enum from `ferrum-meshing-cpu/src/lib.rs`. -/
inductive Face where
  | Right  -- +X
  | Left   -- -X
  | Up     -- +Y
  | Down   -- -Y
  | Front  -- +Z
  | Back   -- -Z
deriving DecidableEq

/-- `MeshQuad` from `ferrum-meshing-cpu/src/lib.rs` (u8 fields as `Nat`). -/
structure MeshQuad where
  x : Nat
  y : Nat
  z : Nat
  width : Nat
  height : Nat
  face : Face
  block_type : Nat
deriving DecidableEq

/-- Face label for a face index 0..5 (`greedy_merge`'s match). -/
def faceOf : Nat → Face
  | 0 => Face.Right
  | 1 => Face.Left
  | 2 => Face.Up
  | 3 => Face.Down
  | 4 => Face.Front
  | _ => Face.Back

/-- `u32::trailing_zeros`, by scanning 32 bits (returns 32 on input 0). -/
def ctzAux : Nat → Nat → Nat
  | 0, _ => 0
  | fuel + 1, n => if n &&& 1 = 1 then 0 else ctzAux fuel (n >>> 1) + 1

/-- Trailing-zero count of a `u32`. -/
def ctz (n : Nat) : Nat := ctzAux 32 n

/-- Read entry `i` of the `forward_merged : [u8; 32]` array, embedded as 32
little-endian 8-bit fields of a `Nat`. -/
def fmGet (fm i : Nat) : Nat := (fm >>> (8 * i)) &&& 255

/-- Write entry `i` of the packed `forward_merged` array (value taken mod 256,
matching `u8`). -/
def fmSet (fm i v : Nat) : Nat :=
  (fm ^^^ (fm &&& (255 <<< (8 * i)))) ||| ((v &&& 255) <<< (8 * i))

/-- `get_block` from `binary_greedy.rs:190`: axis remapping per face. -/
def get_block (voxels : Nat → Nat) (face_idx layer row bit_pos : Nat) : Nat :=
  match face_idx with
  | 0 | 1 => voxel_at voxels bit_pos row layer
  | 2 | 3 => voxel_at voxels row bit_pos layer
  | _ => voxel_at voxels row layer bit_pos

/-- `emit_quad` from `binary_greedy.rs:211`: axis remapping of the emitted
quad per face. -/
def emit_quad (face_idx layer row_start bit_pos width length block : Nat) :
    MeshQuad :=
  match face_idx with
  | 0 | 1 => ⟨bit_pos, row_start, layer, width, length, faceOf face_idx, block⟩
  | 2 | 3 => ⟨row_start, bit_pos, layer, length, width, faceOf face_idx, block⟩
  | _ => ⟨row_start, layer, bit_pos, length, width, faceOf face_idx, block⟩

/-- The right-merge scan of `merge_face` (`for right in (bit_pos+1)..CS`):
extends along the bit axis while the bit is exposed, the forward-merge count
matches, and the block type matches; zeroes `forward_merged[right]` for every
merged position.  Returns the updated packed array and `right_merged`. -/
def rightLoop (voxels : Nat → Nat) (face_idx layer row block bits bit_pos : Nat) :
    Nat → Nat → Nat → Nat → Nat × Nat
  | 0, _, fm, rm => (fm, rm)
  | fuel + 1, right, fm, rm =>
    if right < 32 then
      if (bits >>> right) &&& 1 = 0 ∨ fmGet fm bit_pos ≠ fmGet fm right ∨
          block ≠ get_block voxels face_idx layer row right then
        (fm, rm)
      else
        rightLoop voxels face_idx layer row block bits bit_pos fuel (right + 1)
          (fmSet fm right 0) (rm + 1)
    else (fm, rm)

/-- The body of one `while bits != 0` iteration of `merge_face`:
`bit_pos = bits.trailing_zeros()`; forward-merge into the next row when the
same bit is exposed there with the same block type, else right-merge, clear
`[bit_pos, bit_pos + right_merged)` and emit a quad.  Returns the new
`(bits, forward_merged, quads)`. -/
def rowIter (voxels : Nat → Nat) (face_idx layer row next_bits bits fm : Nat)
    (quads : List MeshQuad) : Nat × Nat × List MeshQuad :=
  let bit_pos := ctz bits
  let block := get_block voxels face_idx layer row bit_pos
  if (next_bits >>> bit_pos) &&& 1 ≠ 0 ∧
      block = get_block voxels face_idx layer (row + 1) bit_pos then
    (bits &&& u32not (1 <<< bit_pos),
     fmSet fm bit_pos (fmGet fm bit_pos + 1), quads)
  else
    let fmrm := rightLoop voxels face_idx layer row block bits bit_pos 32
      (bit_pos + 1) fm 1
    let right_merged := fmrm.2
    let endPos := bit_pos + right_merged
    let clear_mask :=
      if endPos ≥ 32 then u32not ((1 <<< bit_pos) - 1)
      else ((1 <<< endPos) - 1) &&& u32not ((1 <<< bit_pos) - 1)
    (bits &&& u32not clear_mask, fmSet fmrm.1 bit_pos 0,
     quads ++ [emit_quad face_idx layer (row - fmGet fmrm.1 bit_pos) bit_pos
       right_merged (fmGet fmrm.1 bit_pos + 1) block])

/-- The `while bits != 0` loop of `merge_face`.  Each iteration clears at
least one bit of the 32-bit `bits` word, so running it with fuel 32 is
exact. -/
def rowLoop (voxels : Nat → Nat) (face_idx layer row next_bits : Nat) :
    Nat → Nat → Nat → List MeshQuad → Nat × List MeshQuad
  | 0, _, fm, quads => (fm, quads)
  | fuel + 1, bits, fm, quads =>
    if bits = 0 then (fm, quads)
    else
      let s := rowIter voxels face_idx layer row next_bits bits fm quads
      rowLoop voxels face_idx layer row next_bits fuel s.1 s.2.1 s.2.2

/-- One row iteration of `merge_face`: skip empty masks, compute `next_bits`
(0 past the last row) and run the while loop. -/
def rowStep (voxels : Nat → Nat) (face_idx layer : Nat)
    (st : Nat × List MeshQuad) (row : Nat) : Nat × List MeshQuad :=
  let bits := faceMask voxels face_idx layer row
  if bits = 0 then st
  else
    let next_bits := if row + 1 < 32 then faceMask voxels face_idx layer (row + 1) else 0
    rowLoop voxels face_idx layer row next_bits 32 bits st.1 st.2

/-- The layer iteration of `merge_face` (rows 0..31 inside layer). -/
def layerStep (voxels : Nat → Nat) (face_idx : Nat)
    (st : Nat × List MeshQuad) (layer : Nat) : Nat × List MeshQuad :=
  (List.range 32).foldl (rowStep voxels face_idx layer) st

/-- `merge_face`: all 32 layers of one face. -/
def merge_face (voxels : Nat → Nat) (face_idx : Nat)
    (st : Nat × List MeshQuad) : Nat × List MeshQuad :=
  (List.range 32).foldl (layerStep voxels face_idx) st

/-- `mesh` from `binary_greedy.rs:17`: face masks + greedy merge over the six
faces, threading the shared `forward_merged` scratch (initially all zero). -/
def mesh (voxels : Nat → Nat) : List MeshQuad :=
  ((List.range 6).foldl (fun st f => merge_face voxels f st) (0, [])).2

/-! ### Concrete and parametric inputs for the mesher claims -/

/-- Uniform voxel slab: all 32768 voxels equal to `id`. -/
def vUniform (id : Nat) : Nat → Nat := fun _ => id

/-- The per-face quads of a uniform-solid chunk: one fully merged quad per
layer and face (as the mesher emits them, in layer order). -/
def uniformFaceQuads (fc : Face) (id : Nat) : List MeshQuad :=
  match fc with
  | Face.Right => (List.range 32).map (fun layer => ⟨0, 0, layer, 1, 32, Face.Right, id⟩)
  | Face.Left  => (List.range 32).map (fun layer => ⟨31, 0, layer, 1, 32, Face.Left, id⟩)
  | Face.Up    => (List.range 32).map (fun layer => ⟨0, 0, layer, 32, 1, Face.Up, id⟩)
  | Face.Down  => (List.range 32).map (fun layer => ⟨0, 31, layer, 32, 1, Face.Down, id⟩)
  | Face.Front => (List.range 32).map (fun layer => ⟨0, layer, 0, 32, 1, Face.Front, id⟩)
  | Face.Back  => (List.range 32).map (fun layer => ⟨0, layer, 31, 32, 1, Face.Back, id⟩)

/-- The two-adjacent-blocks chunk of scenario S3: voxels `(0,0,0) = 1` and
`(1,0,0) = 1` (linear indices 0 and 1), all else air. -/
def vTwoAdj : Nat → Nat := fun i => if i = 0 ∨ i = 1 then 1 else 0

/-! ## Palette-compressed chunk store

From `src/ferrum-world/src/compressed.rs`.  `BlockId` is a `u16` newtype,
embedded as `Nat`.  The `data: Vec<u64>` buffer is encoded as a single
`Nat`: bit `64*w + b` of `data` is bit `b` of word `w`; a word read is
`(data >>> (64*w)) % 2^64` and the source's in-place word updates become
the same mask-and-merge operations on the encoded buffer (each update
touches exactly one word). -/

/-- `CompressedChunk` (palette, packed-index buffer, current width). -/
structure CompressedChunk where
  palette : List Nat
  data : Nat
  bits_per_block : Nat
deriving DecidableEq

/-- `CompressedChunk::new`: palette `[air]`, empty data, 0 bpb. -/
def CompressedChunk.new : CompressedChunk := ⟨[0], 0, 0⟩

/-- `block_index` from `compressed.rs:172`:
`x * CHUNK_SIZE * CHUNK_SIZE + y * CHUNK_SIZE + z`. -/
def block_index (x y z : Nat) : Nat := x * 32 * 32 + y * 32 + z

/-- `bits_needed` from `compressed.rs:176`: palette size to storage width. -/
def bits_needed (palette_size : Nat) : Nat :=
  if palette_size ≤ 1 then 0
  else if palette_size = 2 then 1
  else if palette_size ≤ 4 then 2
  else if palette_size ≤ 16 then 4
  else if palette_size ≤ 256 then 8
  else 16

/-- `CompressedChunk::get_palette_index`: read the `bits_per_block`-wide
field of `block_idx` out of its 64-bit word. -/
def CompressedChunk.get_palette_index (c : CompressedChunk) (block_idx : Nat) : Nat :=
  if c.bits_per_block = 0 then 0
  else
    let bpb := c.bits_per_block
    let indices_per_u64 := 64 / bpb
    let word_idx := block_idx / indices_per_u64
    let bit_offset := (block_idx % indices_per_u64) * bpb
    let mask := (1 <<< bpb) - 1
    (((c.data >>> (64 * word_idx)) % 2 ^ 64) >>> bit_offset) &&& mask

/-- `CompressedChunk::set_palette_index`: the mask-and-merge
`word ← (word & !(mask << off)) | ((idx & mask) << off)` on word
`word_idx`, written on the encoded buffer via `x & !m = x ^^^ (x &&& m)`
(the shifts inside the word truncate at 64 bits as in Rust). -/
def CompressedChunk.set_palette_index (c : CompressedChunk) (block_idx palette_idx : Nat) :
    CompressedChunk :=
  if c.bits_per_block = 0 then c
  else
    let bpb := c.bits_per_block
    let indices_per_u64 := 64 / bpb
    let word_idx := block_idx / indices_per_u64
    let bit_offset := (block_idx % indices_per_u64) * bpb
    let mask := (1 <<< bpb) - 1
    let clear := ((mask <<< bit_offset) % 2 ^ 64) <<< (64 * word_idx)
    let put := (((palette_idx &&& mask) <<< bit_offset) % 2 ^ 64) <<< (64 * word_idx)
    { c with data := (c.data ^^^ (c.data &&& clear)) ||| put }

/-- Literal transcription of the `pack_indices` loop (`compressed.rs:187`):
one OR per block index, in index order, into the encoded buffer. -/
def pack_indices_flat (idx : Nat → Nat) (bpb : Nat) : Nat :=
  if bpb = 0 then 0
  else
    let per := 64 / bpb
    let mask := (1 <<< bpb) - 1
    (List.range 32768).foldl
      (fun data i =>
        data ||| ((((idx i &&& mask) <<< ((i % per) * bpb)) % 2 ^ 64) <<<
          (64 * (i / per)))) 0

/-- `pack_indices`, regrouped word-by-word: word `w` collects exactly the
indices `i` with `i / indices_per_u64 = w`, so this computes the same
buffer as the source's per-index loop (`pack_indices_eq_flat` below proves
the regrouping exact for the widths the store uses). -/
def pack_indices (idx : Nat → Nat) (bpb : Nat) : Nat :=
  if bpb = 0 then 0
  else
    let per := 64 / bpb
    let mask := (1 <<< bpb) - 1
    let num_words := (32768 + per - 1) / per
    (List.range num_words).foldl
      (fun data w =>
        data |||
          ((List.range per).foldl
            (fun word j =>
              if w * per + j < 32768 then
                word ||| (((idx (w * per + j) &&& mask) <<< (j * bpb)) % 2 ^ 64)
              else word) 0) <<< (64 * w)) 0

/-- `CompressedChunk::resize_storage`: read every index at the old width
(`as u16`), install the new width and repack.  Reading index `i` at the
old width is exactly `get_palette_index` (the source duplicates that
code); when the old width is 0 the indices are all zero. -/
def CompressedChunk.resize_storage (c : CompressedChunk) (new_bpb : Nat) : CompressedChunk :=
  if c.bits_per_block = new_bpb then c
  else
    { c with
      bits_per_block := new_bpb
      data := pack_indices
        (fun i => if 0 < c.bits_per_block then c.get_palette_index i % 2 ^ 16 else 0)
        new_bpb }

/-- `CompressedChunk::set_block`: out-of-bounds writes are no-ops; locate
the palette index (`position`), append and widen when absent, then write
the field. -/
def CompressedChunk.set_block (c : CompressedChunk) (x y z block_id : Nat) : CompressedChunk :=
  if 32 ≤ x ∨ 32 ≤ y ∨ 32 ≤ z then c
  else
    match c.palette.findIdx? (fun b => b == block_id) with
    | some idx => c.set_palette_index (block_index x y z) idx
    | none =>
      let c1 : CompressedChunk := { c with palette := c.palette ++ [block_id] }
      let new_idx := c1.palette.length - 1
      let required := bits_needed c1.palette.length
      let c2 := if c1.bits_per_block < required then c1.resize_storage required else c1
      c2.set_palette_index (block_index x y z) new_idx

/-- `CompressedChunk::get_block`: out-of-bounds reads return air; otherwise
`palette[get_palette_index(index)]` (always in range for stores built by
the API; `getD` with default 0 stands in for the Rust indexing). -/
def CompressedChunk.get_block (c : CompressedChunk) (x y z : Nat) : Nat :=
  if 32 ≤ x ∨ 32 ≤ y ∨ 32 ≤ z then 0
  else c.palette.getD (c.get_palette_index (block_index x y z)) 0

/-- One step of the `from_blocks` scan (`compressed.rs:86`): look the block
up in the palette built so far, appending on first occurrence, and record
its index (`as u16`) in the `[u16; 32768]` index array, encoded as 16-bit
fields of a `Nat`.  In the `none` arm the recorded index is
`palette.len() - 1` *after* the push, i.e. the pre-push length. -/
def fbStep (blocks : Nat → Nat) (st : List Nat × Nat) (i : Nat) :
    List Nat × Nat :=
  match st.1.findIdx? (fun b => b == blocks i) with
  | some idx => (st.1, st.2 ||| ((idx % 2 ^ 16) <<< (16 * i)))
  | none => (st.1 ++ [blocks i], st.2 ||| ((st.1.length % 2 ^ 16) <<< (16 * i)))

/-- The full `from_blocks` scan over all 32768 linear indices. -/
def fbScan (blocks : Nat → Nat) : List Nat × Nat :=
  (List.range 32768).foldl (fbStep blocks) ([], 0)

/-- `CompressedChunk::from_blocks`: build palette and index array, then
pack at the width `bits_needed` demands (empty data at width 0). -/
def CompressedChunk.from_blocks (blocks : Nat → Nat) : CompressedChunk :=
  let scan := fbScan blocks
  let bpb := bits_needed scan.1.length
  { palette := scan.1
    data :=
      if bpb = 0 then 0
      else pack_indices (fun i => (scan.2 >>> (16 * i)) &&& 65535) bpb
    bits_per_block := bpb }

/-- The dense input of the C4 counterexample: block 5 at linear index 1
(i.e. at `(x,y,z) = (0,0,1)` in the store's own ordering), air elsewhere. -/
def c4blocks : Nat → Nat := fun i => if i = 1 then 5 else 0

/-- The chunk of scenario S7 (claim C5): from a new store,
`set(0,0,0,1)`, `set(1,0,0,3)`, `set(2,0,0,9)` in sequence. -/
def c5chunk : CompressedChunk :=
  (((CompressedChunk.new.set_block 0 0 0 1).set_block 1 0 0 3).set_block 2 0 0 9)

/-! ## Bit-field infrastructure -/

/-- Global bit offset of field `i` in the packed buffer:
`64 * word_idx + bit_offset`. -/
def bOff (bpb i : Nat) : Nat := 64 * (i / (64 / bpb)) + (i % (64 / bpb)) * bpb

/-- Field `i` of a packed buffer at width `bpb`. -/
def extractF (data bpb i : Nat) : Nat :=
  (data >>> bOff bpb i) &&& ((1 <<< bpb) - 1)

/-- The mask-and-merge write of field `i` (value truncated to `bpb` bits). -/
def writeF (data bpb i v : Nat) : Nat :=
  (data ^^^ (data &&& ((2 ^ bpb - 1) <<< bOff bpb i))) |||
    ((v % 2 ^ bpb) <<< bOff bpb i)


/-- Representation invariant of `CompressedChunk`, maintained by the public
API: the width matches the palette size, the palette is nonempty and fits
in a `u16` index, and every stored field is a valid palette index. -/
def WFChunk (c : CompressedChunk) : Prop :=
  c.bits_per_block = bits_needed c.palette.length ∧
  0 < c.palette.length ∧ c.palette.length < 65536 ∧
  ∀ i, i < 32768 → extractF c.data c.bits_per_block i < c.palette.length


/-! ## Ambient occlusion (C6)

From `LightingEngine::calculate_ambient_occlusion_with_opaque`
(`src/ferrum-render/src/lighting.rs:182`).  `f32` arithmetic on the
values 0, 0.25, 0.5, 0.75, 1 is exact, so the result is embedded in `ℚ`.
The opacity grid is a function of the three coordinates. -/

/-- The `(face, corner)` sample-offset table: side1, side2, diagonal.
Rows transcribed from the `match (face, corner)` in the source. -/
def aoDeltas (face corner : Nat) :
    Option ((Int × Int × Int) × (Int × Int × Int) × (Int × Int × Int)) :=
  match face, corner with
  | 0, 0 => some ((1,0,0), (0,1,0), (1,1,0))
  | 0, 1 => some ((1,0,0), (0,0,1), (1,0,1))
  | 0, 2 => some ((1,0,0), (0,1,0), (1,1,0))
  | 0, 3 => some ((1,0,0), (0,0,1), (1,0,1))
  | 1, 0 => some ((-1,0,0), (0,0,1), (-1,0,1))
  | 1, 1 => some ((-1,0,0), (0,0,-1), (-1,0,-1))
  | 1, 2 => some ((-1,0,0), (0,1,0), (-1,1,0))
  | 1, 3 => some ((-1,0,0), (0,1,0), (-1,1,0))
  | 2, 0 => some ((0,0,1), (0,1,0), (0,1,1))
  | 2, 1 => some ((0,0,1), (1,0,0), (1,0,1))
  | 2, 2 => some ((0,0,1), (0,1,0), (0,1,1))
  | 2, 3 => some ((0,0,1), (-1,0,0), (-1,0,1))
  | 3, 0 => some ((0,0,-1), (1,0,0), (1,0,-1))
  | 3, 1 => some ((0,0,-1), (0,0,-1), (0,0,-1))
  | 3, 2 => some ((0,0,-1), (0,1,0), (0,1,-1))
  | 3, 3 => some ((0,0,-1), (-1,0,0), (-1,0,-1))
  | 4, 0 => some ((0,1,0), (0,0,1), (0,1,1))
  | 4, 1 => some ((0,1,0), (1,0,0), (1,1,0))
  | 4, 2 => some ((0,1,0), (0,0,1), (0,1,1))
  | 4, 3 => some ((0,1,0), (-1,0,0), (-1,1,0))
  | 5, 0 => some ((0,-1,0), (0,0,1), (0,-1,1))
  | 5, 1 => some ((0,-1,0), (1,0,0), (1,-1,0))
  | 5, 2 => some ((0,-1,0), (0,0,-1), (0,-1,-1))
  | 5, 3 => some ((0,-1,0), (-1,0,0), (-1,-1,0))
  | _, _ => none

/-- The `check_opaque` closure: `(coord as i32 + d) as usize` sends any
negative result above `CHUNK_SIZE`, so out of bounds in any axis (either
side) reads as not opaque. -/
def aoChk (opq : Nat → Nat → Nat → Bool) (x y z : Nat) (dx dy dz : Int) : Bool :=
  let nx := (x : Int) + dx
  let ny := (y : Int) + dy
  let nz := (z : Int) + dz
  if nx < 0 ∨ 32 ≤ nx ∨ ny < 0 ∨ 32 ≤ ny ∨ nz < 0 ∨ 32 ≤ nz then false
  else opq nx.toNat ny.toNat nz.toNat

/-- The branch structure on the three samples: full occlusion only when
all three neighbors are opaque, a fixed 0.5 when just the two sides are,
and otherwise `1 - count/4`. -/
def aoFromSamples (s1 s2 d : Bool) : ℚ :=
  if s1 && s2 && d then 0
  else if s1 && s2 then 1/2
  else 1 - (((if s1 then 1 else 0) + (if s2 then 1 else 0) +
    (if d then 1 else 0) : ℚ) / 4)

/-- `calculate_ambient_occlusion_with_opaque` (the grid passed
explicitly, as in the source): unmatched `(face, corner)` returns 1.0. -/
def calculate_ambient_occlusion (opq : Nat → Nat → Nat → Bool)
    (x y z face corner : Nat) : ℚ :=
  match aoDeltas face corner with
  | none => 1
  | some ((dx1,dy1,dz1), (dx2,dy2,dz2), (dx3,dy3,dz3)) =>
      aoFromSamples (aoChk opq x y z dx1 dy1 dz1) (aoChk opq x y z dx2 dy2 dz2)
        (aoChk opq x y z dx3 dy3 dz3)

/-- The three neighbor samples of a `(face, corner)` pair. -/
def aoSamples (opq : Nat → Nat → Nat → Bool) (x y z face corner : Nat) :
    Bool × Bool × Bool :=
  match aoDeltas face corner with
  | none => (false, false, false)
  | some ((dx1,dy1,dz1), (dx2,dy2,dz2), (dx3,dy3,dz3)) =>
      (aoChk opq x y z dx1 dy1 dz1, aoChk opq x y z dx2 dy2 dz2,
        aoChk opq x y z dx3 dy3 dz3)

/-- The C6 grid: opaque exactly at `(1,0,0)` and `(0,1,0)` — the two side
neighbors of `(0,0,0)` for face 0, corner 0 — with the diagonal
`(1,1,0)` clear. -/
def c6grid : Nat → Nat → Nat → Bool := fun x y z =>
  (x == 1 && y == 0 && z == 0) || (x == 0 && y == 1 && z == 0)

/-! ## LOD downsampling (C8)

From `LodMesher::downsample_cell` (`src/ferrum-render/src/lod.rs:221`).
The per-cell scan state is `(air_count, tracked)` where `tracked` is the
`types[4]`/`counts[4]`/`num_types` trio as a list of at most four
`(type, count)` pairs in insertion order. -/

/-- The inner `for i in 0..num_types` search: bump the count of the first
entry whose type matches, or report not found. -/
def dsBump : List (Nat × Nat) → Nat → Option (List (Nat × Nat))
  | [], _ => none
  | t :: ts, block =>
    if t.1 = block then some ((t.1, t.2 + 1) :: ts)
    else match dsBump ts block with
      | some ts' => some (t :: ts')
      | none => none

/-- One voxel of the cell scan: air bumps `air_count`; a known type bumps
its tally; an unknown type is appended only while fewer than 4 types are
tracked, and is ignored entirely otherwise. -/
def dsStep (st : Nat × List (Nat × Nat)) (block : Nat) : Nat × List (Nat × Nat) :=
  if block = 0 then (st.1 + 1, st.2)
  else match dsBump st.2 block with
    | some ts' => (st.1, ts')
    | none => if st.2.length < 4 then (st.1, st.2 ++ [(block, 1)]) else st

/-- The `s^3` voxels of cell `(gx, gy, gz)` in scan order (`dz`, then
`dy`, then `dx`), read at `z*1024 + y*32 + x` as in the source. -/
def cellBlocks (voxels : Nat → Nat) (gx gy gz s : Nat) : List Nat :=
  (List.range s).flatMap (fun dz => (List.range s).flatMap (fun dy =>
    (List.range s).map (fun dx =>
      voxels ((gz * s + dz) * 1024 + (gy * s + dy) * 32 + (gx * s + dx)))))

/-- The final majority vote: first strictly-greater tally wins, starting
from `(best_type, best_count) = (0, 0)`. -/
def bestStep (best t : Nat × Nat) : Nat × Nat := if best.2 < t.2 then t else best

/-- `LodMesher::downsample_cell`. -/
def downsample_cell (voxels : Nat → Nat) (gx gy gz s : Nat) : Nat :=
  let st := (cellBlocks voxels gx gy gz s).foldl dsStep (0, [])
  if s * s * s / 2 < st.1 then 0
  else (st.2.foldl bestStep (0, 0)).1

/-- The non-air types of a scan in order of first occurrence. -/
def firstSeen (L : List Nat) : List Nat :=
  L.foldl (fun acc b => if b = 0 ∨ b ∈ acc then acc else acc ++ [b]) []

/-- The C8 counterexample input: cell `(0,0,0)` at scale 2 holds the
blocks `1,2,3,4` (one voxel each, scanned first) and `5` (four voxels). -/
def c8voxels : Nat → Nat := fun i =>
  if i = 0 then 1
  else if i = 1 then 2
  else if i = 32 then 3
  else if i = 33 then 4
  else if i = 1024 ∨ i = 1025 ∨ i = 1056 ∨ i = 1057 then 5
  else 0

/-! ## BFS light propagation

From `LightingEngine::propagate_block_light` and
`LightingEngine::propagate_sky_light`
(`src/ferrum-render/src/lighting.rs:67` and `:120`).  The `u8` light
grids are functions read modulo 256; the `VecDeque` is a list popped at
the head and pushed at the tail; `usize` wrapping subtraction keeps its
`% 2^64` semantics, so an underflowed coordinate fails the
`>= CHUNK_SIZE` bounds test. -/

/-- Propagation state: the `result` array and the BFS queue. -/
structure LState where
  result : Nat → Nat → Nat → Nat
  queue : List (Nat × Nat × Nat)

/-- `usize::wrapping_sub(1)`. -/
def wsub1 (x : Nat) : Nat := (x + (2 ^ 64 - 1)) % 2 ^ 64

/-- One neighbor candidate of the sky loop: skip out of bounds, skip a
zero candidate, skip opaque, then raise-and-push when strictly larger
than the stored value. -/
def applyCandS (opq : Nat → Nat → Nat → Bool) (st : LState)
    (c : (Nat × Nat × Nat) × Nat) : LState :=
  if 32 ≤ c.1.1 ∨ 32 ≤ c.1.2.1 ∨ 32 ≤ c.1.2.2 then st
  else if c.2 = 0 then st
  else if opq c.1.1 c.1.2.1 c.1.2.2 then st
  else if st.result c.1.1 c.1.2.1 c.1.2.2 < c.2 then
    { result := fun x y z =>
        if x = c.1.1 ∧ y = c.1.2.1 ∧ z = c.1.2.2 then c.2 else st.result x y z
      queue := st.queue ++ [c.1] }
  else st

/-- One neighbor candidate of the block loop (no zero-candidate test in
the source; `result < 0` is vacuous, so the net effect is the same). -/
def applyCandB (opq : Nat → Nat → Nat → Bool) (st : LState)
    (c : (Nat × Nat × Nat) × Nat) : LState :=
  if 32 ≤ c.1.1 ∨ 32 ≤ c.1.2.1 ∨ 32 ≤ c.1.2.2 then st
  else if opq c.1.1 c.1.2.1 c.1.2.2 then st
  else if st.result c.1.1 c.1.2.1 c.1.2.2 < c.2 then
    { result := fun x y z =>
        if x = c.1.1 ∧ y = c.1.2.1 ∧ z = c.1.2.2 then c.2 else st.result x y z
      queue := st.queue ++ [c.1] }
  else st

/-- The six sky-light candidates of a popped cell, in source order: the
`-Y` neighbor alone inherits `cur` undiminished, the rest decay by one
(`saturating_sub`). -/
def skyCands (p : Nat × Nat × Nat) (cur : Nat) :
    List ((Nat × Nat × Nat) × Nat) :=
  [((p.1 + 1, p.2.1, p.2.2), cur - 1),
   ((wsub1 p.1, p.2.1, p.2.2), cur - 1),
   ((p.1, p.2.1 + 1, p.2.2), cur - 1),
   ((p.1, wsub1 p.2.1, p.2.2), cur),
   ((p.1, p.2.1, p.2.2 + 1), cur - 1),
   ((p.1, p.2.1, wsub1 p.2.2), cur - 1)]

/-- The six block-light candidates: all receive `new_light = cur - 1`. -/
def blockCands (p : Nat × Nat × Nat) (nl : Nat) :
    List ((Nat × Nat × Nat) × Nat) :=
  [((p.1 + 1, p.2.1, p.2.2), nl),
   ((wsub1 p.1, p.2.1, p.2.2), nl),
   ((p.1, p.2.1 + 1, p.2.2), nl),
   ((p.1, wsub1 p.2.1, p.2.2), nl),
   ((p.1, p.2.1, p.2.2 + 1), nl),
   ((p.1, p.2.1, wsub1 p.2.2), nl)]

/-- One iteration of the sky `while let` loop. -/
def skyStep (opq : Nat → Nat → Nat → Bool) (st : LState) : LState :=
  match st.queue with
  | [] => st
  | p :: rest =>
    (skyCands p (st.result p.1 p.2.1 p.2.2)).foldl (applyCandS opq)
      { st with queue := rest }

/-- One iteration of the block `while let` loop, with the
`current_light <= 1` early exit. -/
def blockStep (opq : Nat → Nat → Nat → Bool) (st : LState) : LState :=
  match st.queue with
  | [] => st
  | p :: rest =>
    if st.result p.1 p.2.1 p.2.2 ≤ 1 then { st with queue := rest }
    else (blockCands p (st.result p.1 p.2.1 p.2.2 - 1)).foldl (applyCandB opq)
      { st with queue := rest }

/-- All cell coordinates in the seeding loop's `x`, `y`, `z` order. -/
def allPos : List (Nat × Nat × Nat) :=
  (List.range 32).flatMap (fun x => (List.range 32).flatMap (fun y =>
    (List.range 32).map (fun z => (x, y, z))))

/-- The seeding loop: every in-bounds, non-opaque cell with a positive
stored light gets that value in `result` and a queue entry. -/
def initLight (grid : Nat → Nat → Nat → Nat) (opq : Nat → Nat → Nat → Bool) :
    LState :=
  { result := fun x y z =>
      if x < 32 ∧ y < 32 ∧ z < 32 ∧ 0 < grid x y z % 256 ∧ opq x y z = false
      then grid x y z % 256 else 0
    queue := allPos.filter (fun p =>
      decide (0 < grid p.1 p.2.1 p.2.2 % 256) && !(opq p.1 p.2.1 p.2.2)) }

/-- Fuel-indexed BFS loop: stop on an empty queue. -/
def runWith (step : LState → LState) : Nat → LState → LState
  | 0, st => st
  | fuel + 1, st => if st.queue = [] then st else runWith step fuel (step st)

/-- Enough fuel to drain any `u8`-valued state: the potential
`2 * Σ (255 - result) + |queue|` starts below this bound and strictly
decreases at every iteration. -/
def FUEL : Nat := 2 * 255 * 32768 + 32768 + 1

/-- `LightingEngine::propagate_sky_light` (resulting state). -/
def propagate_sky_light (grid : Nat → Nat → Nat → Nat)
    (opq : Nat → Nat → Nat → Bool) : LState :=
  runWith (skyStep opq) FUEL (initLight grid opq)

/-- `LightingEngine::propagate_block_light` (resulting state). -/
def propagate_block_light (grid : Nat → Nat → Nat → Nat)
    (opq : Nat → Nat → Nat → Bool) : LState :=
  runWith (blockStep opq) FUEL (initLight grid opq)

/-- BFS potential: queue length plus twice the remaining headroom. -/
def potSum (res : Nat → Nat → Nat → Nat) : Nat :=
  (allPos.map (fun p => 255 - res p.1 p.2.1 p.2.2)).sum

def pot (st : LState) : Nat := 2 * potSum st.result + st.queue.length

/-- Invariant: in-bounds values bounded by `B`, out-of-bounds or opaque
cells stuck at 0. -/
def InvL (B : Nat) (opq : Nat → Nat → Nat → Bool) (st : LState) : Prop :=
  (∀ x y z, x < 32 → y < 32 → z < 32 → st.result x y z ≤ B) ∧
  (∀ x y z, (¬ (x < 32 ∧ y < 32 ∧ z < 32) ∨ opq x y z = true) →
    st.result x y z = 0)

/-- Cell `p`'s neighbor obligations are discharged: every candidate the
loop would generate from `p`'s current value is already satisfied. -/
def oblig (opq : Nat → Nat → Nat → Bool) (st : LState)
    (p : Nat × Nat × Nat) : Prop :=
  ∀ c ∈ skyCands p (st.result p.1 p.2.1 p.2.2),
    c.1.1 < 32 → c.1.2.1 < 32 → c.1.2.2 < 32 →
    opq c.1.1 c.1.2.1 c.1.2.2 = false → c.2 ≠ 0 →
    c.2 ≤ st.result c.1.1 c.1.2.1 c.1.2.2

/-- The sky-loop invariant against a static upper-bound function `ub`:
results below `ub` on open cells, zero on closed or out-of-bounds cells,
queue entries open and in bounds, and every open cell either queued or
with discharged obligations. -/
def Inv7 (opq : Nat → Nat → Nat → Bool) (ub : Nat → Nat → Nat → Nat)
    (st : LState) : Prop :=
  (∀ x y z, x < 32 → y < 32 → z < 32 → opq x y z = false →
    st.result x y z ≤ ub x y z) ∧
  (∀ x y z, (¬ (x < 32 ∧ y < 32 ∧ z < 32) ∨ opq x y z = true) →
    st.result x y z = 0) ∧
  (∀ p ∈ st.queue, p.1 < 32 ∧ p.2.1 < 32 ∧ p.2.2 < 32 ∧
    opq p.1 p.2.1 p.2.2 = false) ∧
  (∀ p : Nat × Nat × Nat, p.1 < 32 → p.2.1 < 32 → p.2.2 < 32 →
    opq p.1 p.2.1 p.2.2 = false → p ∈ st.queue ∨ oblig opq st p)

/-- `ub` dominates its own one-step propagation on open cells. -/
def ubClosed (opq : Nat → Nat → Nat → Bool)
    (ub : Nat → Nat → Nat → Nat) : Prop :=
  ∀ p : Nat × Nat × Nat, p.1 < 32 → p.2.1 < 32 → p.2.2 < 32 →
    opq p.1 p.2.1 p.2.2 = false →
    ∀ c ∈ skyCands p (ub p.1 p.2.1 p.2.2),
      c.1.1 < 32 → c.1.2.1 < 32 → c.1.2.2 < 32 →
      opq c.1.1 c.1.2.1 c.1.2.2 = false → c.2 ≤ ub c.1.1 c.1.2.1 c.1.2.2

/-- Scenario S5 light grid: a single sky source of strength `l` at
`(xs, ys, zs)`. -/
def c7grid (xs ys zs l : Nat) : Nat → Nat → Nat → Nat :=
  fun x y z => if x = xs ∧ y = ys ∧ z = zs then l else 0

/-- Scenario opacity: everything outside the column `x = xs, z = zs` is
closed, and the column itself is blocked at height `yb`. -/
def c7opq (xs zs yb : Nat) : Nat → Nat → Nat → Bool :=
  fun x y z => !(decide (x = xs ∧ z = zs)) || decide (y = yb)

/-- Static bound for the scenario: `l` in the open column at or below the
source, decaying above it, 0 under the block and off the column. -/
def c7ub (xs zs ys yb l : Nat) : Nat → Nat → Nat → Nat :=
  fun x y z => if x = xs ∧ z = zs ∧ ¬ y = yb then
    (if y ≤ ys then (if yb < y then l else 0) else l - (y - ys)) else 0

/-! ## Lemmas: face-mask bit semantics (C1) -/

section C1Lemmas

theorem u32not_testBit {x : Nat} (hx : x < 2 ^ 32) {i : Nat} (hi : i < 32) :
    (u32not x).testBit i = ! x.testBit i := by
  unfold u32not
  rw [Nat.testBit_xor]
  have : (2 ^ 32 - 1).testBit i = true := by
    rw [Nat.testBit_two_pow_sub_one]
    simpa using hi
  rw [this]
  cases x.testBit i <;> rfl

theorem maskSh1L_testBit {col : Nat} (hcol : col < 2 ^ 32) {i : Nat} (hi : i < 32) :
    (maskSh1L col).testBit i =
      (col.testBit i && ! (0 < i && col.testBit (i - 1))) := by
  unfold maskSh1L
  rw [Nat.testBit_land]
  have hsh : ((col <<< 1) % 2 ^ 32) < 2 ^ 32 := Nat.mod_lt _ (by norm_num)
  rw [u32not_testBit hsh hi]
  rw [Nat.testBit_mod_two_pow, Nat.testBit_shiftLeft]
  rcases Nat.eq_zero_or_pos i with h0 | hpos
  · subst h0; simp
  · have h1 : decide (1 ≤ i) = true := by simpa using hpos
    have h2 : decide (i < 32) = true := by simpa using hi
    have h3 : decide (0 < i) = true := by simpa using hpos
    rw [h1, h2, h3]
    simp

theorem maskSh1R_testBit {col : Nat} (hcol : col < 2 ^ 32) {i : Nat} (hi : i < 32) :
    (maskSh1R col).testBit i = (col.testBit i && ! col.testBit (i + 1)) := by
  unfold maskSh1R
  rw [Nat.testBit_land]
  have hsh : col >>> 1 < 2 ^ 32 :=
    lt_of_le_of_lt (by simpa [Nat.shiftRight_eq_div_pow] using Nat.div_le_self col 2) hcol
  rw [u32not_testBit hsh hi, Nat.testBit_shiftRight]
  rw [Nat.add_comm 1 i]

end C1Lemmas

/-- **C1, counterexample.**  The claim states that bit `i` of the mask
`opaque & ~(opaque << 1)` (stored for the `+axis` faces) is set iff voxel
`i` is solid and its *higher*-axis neighbor `i+1` is air or out of bounds.
For the column `opaque = 3` (voxels 0 and 1 solid) and `i = 0`, the mask
bit is set although the higher neighbor (voxel 1) is solid. -/
theorem C1_counterexample :
    ¬ ((maskSh1L 3).testBit 0 = ((3 : Nat).testBit 0 && ! (3 : Nat).testBit 1)) := by
  decide

/-- **C1, amended.**  The semantics of the two mask formulas are the
reverse of what the claim states: for every 32-bit opacity column, bit `i`
of `opaque & ~(opaque << 1)` is set iff voxel `i` is solid and its
*lower*-axis neighbor `i−1` is air or out of bounds (`i = 0`), while bit
`i` of `opaque & ~(opaque >> 1)` is set iff voxel `i` is solid and its
*higher*-axis neighbor `i+1` is air or out of bounds. -/
theorem C1_amended (col : Nat) (hcol : col < 2 ^ 32) (i : Nat) (hi : i < 32) :
    ((maskSh1L col).testBit i =
      (col.testBit i && ! (0 < i && col.testBit (i - 1)))) ∧
    ((maskSh1R col).testBit i = (col.testBit i && ! col.testBit (i + 1))) :=
  ⟨maskSh1L_testBit hcol hi, maskSh1R_testBit hcol hi⟩

/-- Witness for `C1_amended` at `col = 3`, `i = 0`. -/
theorem C1_amended_witness :
    (3 : Nat) < 2 ^ 32 ∧ (0 : Nat) < 32 ∧
    (((maskSh1L 3).testBit 0 =
        ((3 : Nat).testBit 0 && ! (0 < 0 && (3 : Nat).testBit (0 - 1)))) ∧
      ((maskSh1R 3).testBit 0 = ((3 : Nat).testBit 0 && ! (3 : Nat).testBit (0 + 1)))) :=
  ⟨by decide, by decide, C1_amended 3 (by decide) 0 (by decide)⟩

/-! ## Lemmas: uniform-solid chunk meshing (C3) and scenario S3 (C2) -/

lemma get_block_uniform (id f layer row bit : Nat) :
    get_block (vUniform id) f layer row bit = id := by
  unfold get_block voxel_at vUniform
  split <;> rfl

lemma rowLoop_succ (voxels : Nat → Nat) (f layer row next fuel bits fm : Nat)
    (quads : List MeshQuad) :
    rowLoop voxels f layer row next (fuel + 1) bits fm quads =
      if bits = 0 then (fm, quads)
      else
        let s := rowIter voxels f layer row next bits fm quads
        rowLoop voxels f layer row next fuel s.1 s.2.1 s.2.2 := rfl

lemma rowIter_fwd_b0 (id f layer row fm : Nat) (quads : List MeshQuad) :
    rowIter (vUniform id) f layer row 1 1 fm quads =
      (0, fmSet fm 0 (fmGet fm 0 + 1), quads) := by
  simp only [rowIter, show ctz 1 = 0 from rfl, get_block_uniform]
  rw [if_pos ⟨by decide, trivial⟩, show (1 : Nat) &&& u32not (1 <<< 0) = 0 from by decide]

lemma rowIter_emit_b0 (id f layer row fm : Nat) (quads : List MeshQuad) :
    rowIter (vUniform id) f layer row 0 1 fm quads =
      (0, fmSet fm 0 0,
        quads ++ [emit_quad f layer (row - fmGet fm 0) 0 1 (fmGet fm 0 + 1) id]) := by
  simp only [rowIter, show ctz 1 = 0 from rfl, get_block_uniform]
  rw [if_neg (fun h => absurd h.1 (by decide))]
  rw [show rightLoop (vUniform id) f layer row id 1 0 32 (0 + 1) fm 1 = (fm, 1) from rfl]
  norm_num
  all_goals decide

lemma rowIter_fwd_b31 (id f layer row fm : Nat) (quads : List MeshQuad) :
    rowIter (vUniform id) f layer row 2147483648 2147483648 fm quads =
      (0, fmSet fm 31 (fmGet fm 31 + 1), quads) := by
  simp only [rowIter, show ctz 2147483648 = 31 from by decide, get_block_uniform]
  rw [if_pos ⟨by decide, trivial⟩,
    show (2147483648 : Nat) &&& u32not (1 <<< 31) = 0 from by decide]

lemma rowIter_emit_b31 (id f layer row fm : Nat) (quads : List MeshQuad) :
    rowIter (vUniform id) f layer row 0 2147483648 fm quads =
      (0, fmSet fm 31 0,
        quads ++ [emit_quad f layer (row - fmGet fm 31) 31 1 (fmGet fm 31 + 1) id]) := by
  simp only [rowIter, show ctz 2147483648 = 31 from by decide, get_block_uniform]
  rw [if_neg (fun h => absurd h.1 (by decide))]
  rw [show rightLoop (vUniform id) f layer row id 2147483648 31 32 (31 + 1) fm 1 =
    (fm, 1) from rfl]
  norm_num
  all_goals decide

lemma rowLoop32_fwd_b0 (id f layer row fm : Nat) (quads : List MeshQuad) :
    rowLoop (vUniform id) f layer row 1 32 1 fm quads =
      (fmSet fm 0 (fmGet fm 0 + 1), quads) := by
  rw [show (32 : Nat) = 31 + 1 from rfl, rowLoop_succ, if_neg (by decide)]
  simp only [rowIter_fwd_b0]
  rw [show (31 : Nat) = 30 + 1 from rfl, rowLoop_succ, if_pos rfl]

lemma rowLoop32_emit_b0 (id f layer row fm : Nat) (quads : List MeshQuad) :
    rowLoop (vUniform id) f layer row 0 32 1 fm quads =
      (fmSet fm 0 0,
        quads ++ [emit_quad f layer (row - fmGet fm 0) 0 1 (fmGet fm 0 + 1) id]) := by
  rw [show (32 : Nat) = 31 + 1 from rfl, rowLoop_succ, if_neg (by decide)]
  simp only [rowIter_emit_b0]
  rw [show (31 : Nat) = 30 + 1 from rfl, rowLoop_succ, if_pos rfl]

lemma rowLoop32_fwd_b31 (id f layer row fm : Nat) (quads : List MeshQuad) :
    rowLoop (vUniform id) f layer row 2147483648 32 2147483648 fm quads =
      (fmSet fm 31 (fmGet fm 31 + 1), quads) := by
  rw [show (32 : Nat) = 31 + 1 from rfl, rowLoop_succ, if_neg (by decide)]
  simp only [rowIter_fwd_b31]
  rw [show (31 : Nat) = 30 + 1 from rfl, rowLoop_succ, if_pos rfl]

lemma rowLoop32_emit_b31 (id f layer row fm : Nat) (quads : List MeshQuad) :
    rowLoop (vUniform id) f layer row 0 32 2147483648 fm quads =
      (fmSet fm 31 0,
        quads ++ [emit_quad f layer (row - fmGet fm 31) 31 1 (fmGet fm 31 + 1) id]) := by
  rw [show (32 : Nat) = 31 + 1 from rfl, rowLoop_succ, if_neg (by decide)]
  simp only [rowIter_emit_b31]
  rw [show (31 : Nat) = 30 + 1 from rfl, rowLoop_succ, if_pos rfl]

lemma fmGet_mul (b r : Nat) : fmGet (r * 2 ^ (8 * b)) b = r % 256 := by
  unfold fmGet
  rw [Nat.shiftRight_eq_div_pow,
    Nat.mul_div_cancel r (Nat.pos_pow_of_pos (8 * b) (by norm_num))]
  rw [show (255 : Nat) = 2 ^ 8 - 1 from rfl, Nat.and_pow_two_sub_one_eq_mod]

lemma shiftLeft_land_shiftLeft (a c k : Nat) :
    (a <<< k) &&& (c <<< k) = (a &&& c) <<< k := by
  apply Nat.eq_of_testBit_eq
  intro i
  simp only [Nat.testBit_land, Nat.testBit_shiftLeft]
  cases Decidable.em (k ≤ i) with
  | inl h => simp [h, Nat.testBit_land]
  | inr h => simp [h]

lemma fmSet_mul (b r v : Nat) (hr : r < 256) :
    fmSet (r * 2 ^ (8 * b)) b v = (v % 256) * 2 ^ (8 * b) := by
  unfold fmSet
  rw [show r * 2 ^ (8 * b) = r <<< (8 * b) from (Nat.shiftLeft_eq r (8 * b)).symm,
    shiftLeft_land_shiftLeft]
  rw [show r &&& 255 = r from by
    rw [show (255 : Nat) = 2 ^ 8 - 1 from rfl, Nat.and_pow_two_sub_one_eq_mod,
      Nat.mod_eq_of_lt hr]]
  rw [Nat.xor_self, Nat.zero_or]
  rw [show v &&& 255 = v % 256 from by
    rw [show (255 : Nat) = 2 ^ 8 - 1 from rfl, Nat.and_pow_two_sub_one_eq_mod]]
  rw [Nat.shiftLeft_eq]

lemma colY_uniform {id : Nat} (h : id ≠ 0) (x z : Nat) :
    colY (vUniform id) x z = 2 ^ 32 - 1 := by
  unfold colY voxel_at vUniform
  simp only [h, ne_eq, not_false_eq_true, if_true]
  decide

lemma colZ_uniform {id : Nat} (h : id ≠ 0) (x y : Nat) :
    colZ (vUniform id) x y = 2 ^ 32 - 1 := by
  unfold colZ voxel_at vUniform
  simp only [h, ne_eq, not_false_eq_true, if_true]
  decide

lemma colX_uniform {id : Nat} (h : id ≠ 0) (y z : Nat) :
    colX (vUniform id) y z = 2 ^ 32 - 1 := by
  unfold colX voxel_at vUniform
  simp only [h, ne_eq, not_false_eq_true, if_true]
  decide

lemma maskSh1L_allones : maskSh1L (2 ^ 32 - 1) = 1 := by decide
lemma maskSh1R_allones : maskSh1R (2 ^ 32 - 1) = 2147483648 := by decide

/-- The generic row sweep of one layer on a uniform chunk: starting at row
`r` with `forward_merged[b] = r`, all remaining rows forward-merge except the
last, which emits the single fully merged quad of the layer. -/
lemma rows_uniform (id f layer m b : Nat)
    (hmask : ∀ row, faceMask (vUniform id) f layer row = m)
    (hm : m ≠ 0)
    (hfwd : ∀ row fm quads, rowLoop (vUniform id) f layer row m 32 m fm quads =
      (fmSet fm b (fmGet fm b + 1), quads))
    (hemit : ∀ row fm quads, rowLoop (vUniform id) f layer row 0 32 m fm quads =
      (fmSet fm b 0,
        quads ++ [emit_quad f layer (row - fmGet fm b) b 1 (fmGet fm b + 1) id])) :
    ∀ n r q, r + n = 32 → 1 ≤ n →
      List.foldl (rowStep (vUniform id) f layer) (r * 2 ^ (8 * b), q)
        (List.range' r n) = (0, q ++ [emit_quad f layer 0 b 1 32 id]) := by
  intro n
  induction n with
  | zero => omega
  | succ k ih =>
    intro r q hr _
    rcases Nat.eq_zero_or_pos k with hk | hk
    · subst hk
      have hr31 : r = 31 := by omega
      subst hr31
      rw [List.range'_one, List.foldl_cons, List.foldl_nil]
      unfold rowStep
      rw [hmask, if_neg hm, if_neg (by norm_num)]
      rw [hemit]
      dsimp only
      rw [fmGet_mul, fmSet_mul b 31 0 (by norm_num)]
      norm_num
    · have hcons : List.range' r (k + 1) = r :: List.range' (r + 1) k :=
        List.range'_succ r k 1
      rw [hcons, List.foldl_cons]
      unfold rowStep
      rw [hmask, if_neg hm, if_pos (by omega : r + 1 < 32), hmask]
      rw [hfwd]
      dsimp only
      rw [fmGet_mul, fmSet_mul b r _ (show r < 256 from by omega)]
      rw [show r % 256 = r from Nat.mod_eq_of_lt (by omega),
        show (r + 1) % 256 = r + 1 from Nat.mod_eq_of_lt (by omega)]
      exact ih (r + 1) q (by omega) hk

lemma layerStep_uniform_of (id f m b : Nat)
    (hmask : ∀ layer row, faceMask (vUniform id) f layer row = m)
    (hm : m ≠ 0)
    (hfwd : ∀ layer row fm quads, rowLoop (vUniform id) f layer row m 32 m fm quads =
      (fmSet fm b (fmGet fm b + 1), quads))
    (hemit : ∀ layer row fm quads, rowLoop (vUniform id) f layer row 0 32 m fm quads =
      (fmSet fm b 0,
        quads ++ [emit_quad f layer (row - fmGet fm b) b 1 (fmGet fm b + 1) id]))
    (layer : Nat) (q : List MeshQuad) :
    layerStep (vUniform id) f (0, q) layer =
      (0, q ++ [emit_quad f layer 0 b 1 32 id]) := by
  unfold layerStep
  rw [List.range_eq_range']
  have h := rows_uniform id f layer m b (hmask layer) hm (hfwd layer) (hemit layer)
    32 0 q (by norm_num) (by norm_num)
  rw [zero_mul] at h
  exact h

lemma foldl_emit (step : (Nat × List MeshQuad) → Nat → (Nat × List MeshQuad))
    (g : Nat → MeshQuad)
    (hstep : ∀ q a, step (0, q) a = (0, q ++ [g a])) :
    ∀ (L : List Nat) (q : List MeshQuad),
      List.foldl step (0, q) L = (0, q ++ L.map g) := by
  intro L
  induction L with
  | nil => intro q; simp
  | cons a L ih =>
    intro q
    rw [List.foldl_cons, hstep, ih, List.map_cons]
    simp

lemma merge_face_uniform_0 {id : Nat} (h : id ≠ 0) (q : List MeshQuad) :
    merge_face (vUniform id) 0 (0, q) = (0, q ++ uniformFaceQuads Face.Right id) := by
  unfold merge_face
  exact foldl_emit _ _
    (fun q layer => layerStep_uniform_of id 0 1 0
      (fun layer row => by unfold faceMask; rw [colX_uniform h, maskSh1L_allones])
      (by decide)
      (fun layer row fm quads => rowLoop32_fwd_b0 id 0 layer row fm quads)
      (fun layer row fm quads => rowLoop32_emit_b0 id 0 layer row fm quads) layer q)
    (List.range 32) q

lemma merge_face_uniform_1 {id : Nat} (h : id ≠ 0) (q : List MeshQuad) :
    merge_face (vUniform id) 1 (0, q) = (0, q ++ uniformFaceQuads Face.Left id) := by
  unfold merge_face
  exact foldl_emit _ _
    (fun q layer => layerStep_uniform_of id 1 2147483648 31
      (fun layer row => by unfold faceMask; rw [colX_uniform h, maskSh1R_allones])
      (by decide)
      (fun layer row fm quads => rowLoop32_fwd_b31 id 1 layer row fm quads)
      (fun layer row fm quads => rowLoop32_emit_b31 id 1 layer row fm quads) layer q)
    (List.range 32) q

lemma merge_face_uniform_2 {id : Nat} (h : id ≠ 0) (q : List MeshQuad) :
    merge_face (vUniform id) 2 (0, q) = (0, q ++ uniformFaceQuads Face.Up id) := by
  unfold merge_face
  exact foldl_emit _ _
    (fun q layer => layerStep_uniform_of id 2 1 0
      (fun layer row => by unfold faceMask; rw [colY_uniform h, maskSh1L_allones])
      (by decide)
      (fun layer row fm quads => rowLoop32_fwd_b0 id 2 layer row fm quads)
      (fun layer row fm quads => rowLoop32_emit_b0 id 2 layer row fm quads) layer q)
    (List.range 32) q

lemma merge_face_uniform_3 {id : Nat} (h : id ≠ 0) (q : List MeshQuad) :
    merge_face (vUniform id) 3 (0, q) = (0, q ++ uniformFaceQuads Face.Down id) := by
  unfold merge_face
  exact foldl_emit _ _
    (fun q layer => layerStep_uniform_of id 3 2147483648 31
      (fun layer row => by unfold faceMask; rw [colY_uniform h, maskSh1R_allones])
      (by decide)
      (fun layer row fm quads => rowLoop32_fwd_b31 id 3 layer row fm quads)
      (fun layer row fm quads => rowLoop32_emit_b31 id 3 layer row fm quads) layer q)
    (List.range 32) q

lemma merge_face_uniform_4 {id : Nat} (h : id ≠ 0) (q : List MeshQuad) :
    merge_face (vUniform id) 4 (0, q) = (0, q ++ uniformFaceQuads Face.Front id) := by
  unfold merge_face
  exact foldl_emit _ _
    (fun q layer => layerStep_uniform_of id 4 1 0
      (fun layer row => by unfold faceMask; rw [colZ_uniform h, maskSh1L_allones])
      (by decide)
      (fun layer row fm quads => rowLoop32_fwd_b0 id 4 layer row fm quads)
      (fun layer row fm quads => rowLoop32_emit_b0 id 4 layer row fm quads) layer q)
    (List.range 32) q

lemma merge_face_uniform_5 {id : Nat} (h : id ≠ 0) (q : List MeshQuad) :
    merge_face (vUniform id) 5 (0, q) = (0, q ++ uniformFaceQuads Face.Back id) := by
  unfold merge_face
  exact foldl_emit _ _
    (fun q layer => layerStep_uniform_of id 5 2147483648 31
      (fun layer row => by unfold faceMask; rw [colZ_uniform h, maskSh1R_allones])
      (by decide)
      (fun layer row fm quads => rowLoop32_fwd_b31 id 5 layer row fm quads)
      (fun layer row fm quads => rowLoop32_emit_b31 id 5 layer row fm quads) layer q)
    (List.range 32) q

lemma mesh_uniform {id : Nat} (h : id ≠ 0) :
    mesh (vUniform id) =
      uniformFaceQuads Face.Right id ++ uniformFaceQuads Face.Left id ++
      uniformFaceQuads Face.Up id ++ uniformFaceQuads Face.Down id ++
      uniformFaceQuads Face.Front id ++ uniformFaceQuads Face.Back id := by
  have e1 := (congrArg (merge_face (vUniform id) 1) (merge_face_uniform_0 h [])).trans
    (merge_face_uniform_1 h _)
  have e2 := (congrArg (merge_face (vUniform id) 2) e1).trans (merge_face_uniform_2 h _)
  have e3 := (congrArg (merge_face (vUniform id) 3) e2).trans (merge_face_uniform_3 h _)
  have e4 := (congrArg (merge_face (vUniform id) 4) e3).trans (merge_face_uniform_4 h _)
  have e5 := (congrArg (merge_face (vUniform id) 5) e4).trans (merge_face_uniform_5 h _)
  unfold mesh
  rw [show List.range 6 = [0, 1, 2, 3, 4, 5] from rfl]
  rw [List.foldl_cons, List.foldl_cons, List.foldl_cons, List.foldl_cons,
    List.foldl_cons, List.foldl_cons, List.foldl_nil]
  rw [e5]
  simp

/-- **C3.**  For every uniform solid chunk (all 32768 voxels equal to one
non-air block id), the CPU mesher emits exactly 6 × 32 = 192 quads, and for
each of the six face directions the emitted quads of that face are exactly
one fully merged quad per layer (32 quads, each spanning the full 32-voxel
extent of its slice, `uniformFaceQuads`). -/
theorem C3_uniform_solid (id : Nat) (h : id ≠ 0) :
    (mesh (vUniform id)).length = 192 ∧
    ∀ fc : Face, List.filter (fun q => q.face == fc) (mesh (vUniform id)) =
      uniformFaceQuads fc id := by
  constructor
  · rw [mesh_uniform h]
    simp [uniformFaceQuads]
  · intro fc
    rw [mesh_uniform h]
    cases fc <;>
      simp [uniformFaceQuads, List.filter_append, List.filter_map, Function.comp_def,
        show ∀ a b : Face, (a == b) = decide (a = b) from fun a b => rfl]

/-- Witness for `C3_uniform_solid` at `id = 7`. -/
theorem C3_witness :
    (7 : Nat) ≠ 0 ∧
    ((mesh (vUniform 7)).length = 192 ∧
      ∀ fc : Face, List.filter (fun q => q.face == fc) (mesh (vUniform 7)) =
        uniformFaceQuads fc 7) :=
  ⟨by decide, C3_uniform_solid 7 (by decide)⟩

set_option maxRecDepth 100000 in
set_option maxHeartbeats 4000000 in
lemma mesh_vTwoAdj :
    mesh vTwoAdj =
      [⟨0, 0, 0, 1, 1, Face.Right, 1⟩, ⟨1, 0, 0, 1, 1, Face.Left, 1⟩,
       ⟨0, 0, 0, 2, 1, Face.Up, 1⟩, ⟨0, 0, 0, 2, 1, Face.Down, 1⟩,
       ⟨0, 0, 0, 2, 1, Face.Front, 1⟩, ⟨0, 0, 0, 2, 1, Face.Back, 1⟩] := by
  decide

/-- **C2, counterexample.**  On the chunk with voxels `(0,0,0) = 1` and
`(1,0,0) = 1`, the claim says the +X quad has `x = 2` (and the −X quad
`x = 0`); in fact the mesher emits no +X-labeled quad with `x = 2` at all
(the +X-labeled quad sits at `x = 0`, see `C2_amended`). -/
theorem C2_counterexample :
    ¬ ∃ q ∈ mesh vTwoAdj, q.face = Face.Right ∧ q.x = 2 := by
  rw [mesh_vTwoAdj]
  decide

/-- **C2, amended.**  On the chunk with voxels `(0,0,0) = 1` and
`(1,0,0) = 1` the CPU mesher emits exactly 6 quads; the +Y/−Y/+Z/−Z quads
each have width 2 and height 1 (merged along X); but the quad labeled +X
(`Face.Right`) has `x = 0` and the quad labeled −X (`Face.Left`) has
`x = 1` — the code's ±X face masks mark the opposite exposure direction
from the claim (see C1). -/
theorem C2_amended :
    mesh vTwoAdj =
      [⟨0, 0, 0, 1, 1, Face.Right, 1⟩, ⟨1, 0, 0, 1, 1, Face.Left, 1⟩,
       ⟨0, 0, 0, 2, 1, Face.Up, 1⟩, ⟨0, 0, 0, 2, 1, Face.Down, 1⟩,
       ⟨0, 0, 0, 2, 1, Face.Front, 1⟩, ⟨0, 0, 0, 2, 1, Face.Back, 1⟩] :=
  mesh_vTwoAdj

/-! ## Lemmas: palette widening scenario S7 (C5) -/

lemma c5_st1 : CompressedChunk.new.set_block 0 0 0 1 = ⟨[0, 1], 1, 1⟩ := by decide

lemma c5_st2 : (⟨[0, 1], 1, 1⟩ : CompressedChunk).set_block 1 0 0 3 =
    ⟨[0, 1, 3], 1 + 2 ^ 2049, 2⟩ := by decide

lemma c5_st3 : (⟨[0, 1, 3], 1 + 2 ^ 2049, 2⟩ : CompressedChunk).set_block 2 0 0 9 =
    ⟨[0, 1, 3, 9], 1 + 2 ^ 2049 + 3 * 2 ^ 4096, 2⟩ := by decide

lemma c5chunk_eq : c5chunk = ⟨[0, 1, 3, 9], 1 + 2 ^ 2049 + 3 * 2 ^ 4096, 2⟩ := by
  unfold c5chunk
  rw [c5_st1, c5_st2, c5_st3]

/-- **C5, counterexample.**  The claim says `bits_per_block` ends at 4
after the three sets `(0,0,0)←1`, `(1,0,0)←3`, `(2,0,0)←9`; in fact the
third set only grows the palette to 4 entries, for which `bits_needed`
still answers 2. -/
theorem C5_counterexample : ¬ (c5chunk.bits_per_block = 4) := by
  rw [c5chunk_eq]
  decide

/-- **C5, amended.**  Starting from a new store, the three sets make
`bits_per_block` take the values 0 → 1 → 2 → 2 (the third set adds a
fourth palette entry, which still fits in 2 bits), and each written
coordinate reads back the id that was written. -/
theorem C5_amended :
    CompressedChunk.new.bits_per_block = 0 ∧
    (CompressedChunk.new.set_block 0 0 0 1).bits_per_block = 1 ∧
    ((CompressedChunk.new.set_block 0 0 0 1).set_block 1 0 0 3).bits_per_block = 2 ∧
    c5chunk.bits_per_block = 2 ∧
    c5chunk.get_block 0 0 0 = 1 ∧ c5chunk.get_block 1 0 0 = 3 ∧
    c5chunk.get_block 2 0 0 = 9 := by
  refine ⟨rfl, ?_, ?_, ?_, ?_, ?_, ?_⟩
  · rw [c5_st1]
  · rw [c5_st1, c5_st2]
  · rw [c5chunk_eq]
  · rw [c5chunk_eq]; decide
  · rw [c5chunk_eq]; decide
  · rw [c5chunk_eq]; decide

/-! ## Lemmas: compressed chunk store set/get round trip and frame (C9) -/

lemma extractF_eq_div_mod (data bpb i : Nat) :
    extractF data bpb i = data / 2 ^ bOff bpb i % 2 ^ bpb := by
  unfold extractF
  rw [Nat.shiftRight_eq_div_pow, Nat.shiftLeft_eq, one_mul,
    Nat.and_pow_two_sub_one_eq_mod]

lemma bOff_within (bpb i : Nat) (hdvd : bpb ∣ 64) (hb : 0 < bpb) :
    (i % (64 / bpb)) * bpb + bpb ≤ 64 := by
  have hper : 64 / bpb * bpb = 64 := Nat.div_mul_cancel hdvd
  have hlt : i % (64 / bpb) < 64 / bpb :=
    Nat.mod_lt _ (Nat.div_pos (Nat.le_of_dvd (by norm_num) hdvd) hb)
  calc (i % (64 / bpb)) * bpb + bpb = (i % (64 / bpb) + 1) * bpb := by ring
    _ ≤ (64 / bpb) * bpb := Nat.mul_le_mul_right _ hlt
    _ = 64 := hper

lemma word_read_eq (data w off bpb : Nat) (h : off + bpb ≤ 64) :
    data / 2 ^ (64 * w) % 2 ^ 64 / 2 ^ off % 2 ^ bpb =
      data / 2 ^ (64 * w + off) % 2 ^ bpb := by
  have hsplit : (2 : Nat) ^ 64 = 2 ^ off * 2 ^ (64 - off) := by
    rw [← pow_add]
    congr 1
    omega
  have h1 : data / 2 ^ (64 * w) % 2 ^ 64 / 2 ^ off =
      data / 2 ^ (64 * w) / 2 ^ off % 2 ^ (64 - off) := by
    rw [hsplit]
    exact Nat.mod_mul_right_div_self (data / 2 ^ (64 * w)) (2 ^ off)
      (2 ^ (64 - off))
  rw [h1, Nat.mod_mod_of_dvd _ (pow_dvd_pow 2 (by omega)),
    Nat.div_div_eq_div_mul, ← pow_add]

lemma get_palette_index_eq_extractF (c : CompressedChunk)
    (hb : 0 < c.bits_per_block) (hdvd : c.bits_per_block ∣ 64) (i : Nat) :
    c.get_palette_index i = extractF c.data c.bits_per_block i := by
  unfold CompressedChunk.get_palette_index
  rw [if_neg (Nat.pos_iff_ne_zero.mp hb)]
  dsimp only
  rw [extractF_eq_div_mod]
  unfold bOff
  rw [Nat.shiftRight_eq_div_pow, Nat.shiftRight_eq_div_pow, Nat.shiftLeft_eq,
    one_mul, Nat.and_pow_two_sub_one_eq_mod]
  exact word_read_eq c.data _ _ _ (bOff_within c.bits_per_block i hdvd hb)

lemma extractF_testBit (data bpb i j : Nat) :
    (extractF data bpb i).testBit j =
      (decide (j < bpb) && data.testBit (bOff bpb i + j)) := by
  unfold extractF
  rw [Nat.testBit_land, Nat.testBit_shiftRight,
    show (1 <<< bpb - 1 : Nat) = 2 ^ bpb - 1 from by rw [Nat.shiftLeft_eq, one_mul],
    Nat.testBit_two_pow_sub_one, Bool.and_comm]

lemma writeF_testBit (data bpb i v k : Nat) :
    (writeF data bpb i v).testBit k =
      if bOff bpb i ≤ k ∧ k < bOff bpb i + bpb then
        (v % 2 ^ bpb).testBit (k - bOff bpb i)
      else data.testBit k := by
  unfold writeF
  set o := bOff bpb i
  rw [Nat.testBit_lor, Nat.testBit_xor, Nat.testBit_land,
    Nat.testBit_shiftLeft, Nat.testBit_shiftLeft, Nat.testBit_two_pow_sub_one]
  rcases Nat.lt_or_ge k o with h1 | h1
  · rw [if_neg (by omega)]
    have : decide (k ≥ o) = false := by simpa using h1
    rw [this]
    cases data.testBit k <;> rfl
  · have hro : decide (k ≥ o) = true := by simpa using h1
    rw [hro]
    rcases Nat.lt_or_ge k (o + bpb) with h2 | h2
    · rw [if_pos ⟨h1, h2⟩]
      have : decide (k - o < bpb) = true := by simp; omega
      rw [this]
      cases data.testBit k <;> cases (v % 2 ^ bpb).testBit (k - o) <;> rfl
    · rw [if_neg (by omega)]
      have hm : decide (k - o < bpb) = false := by simp; omega
      have hv : (v % 2 ^ bpb).testBit (k - o) = false :=
        Nat.testBit_eq_false_of_lt
          (lt_of_lt_of_le (Nat.mod_lt _ (Nat.pos_pow_of_pos _ (by norm_num)))
            (Nat.pow_le_pow_right (by norm_num) (by omega)))
      rw [hm, hv]
      cases data.testBit k <;> rfl

lemma bOff_step (bpb : Nat) (hdvd : bpb ∣ 64) (hb : 0 < bpb) {i j : Nat}
    (hij : i < j) : bOff bpb i + bpb ≤ bOff bpb j := by
  have hper : 64 / bpb * bpb = 64 := Nat.div_mul_cancel hdvd
  have hperpos : 0 < 64 / bpb := Nat.div_pos (Nat.le_of_dvd (by norm_num) hdvd) hb
  unfold bOff
  rcases Nat.lt_or_ge (i / (64 / bpb)) (j / (64 / bpb)) with hq | hq
  · have h1 : i % (64 / bpb) * bpb + bpb ≤ 64 := bOff_within bpb i hdvd hb
    have h2 : 64 * (i / (64 / bpb)) + 64 ≤ 64 * (j / (64 / bpb)) := by
      have := Nat.succ_le_of_lt hq
      calc 64 * (i / (64 / bpb)) + 64 = 64 * (i / (64 / bpb) + 1) := by ring
        _ ≤ 64 * (j / (64 / bpb)) := Nat.mul_le_mul_left _ this
    omega
  · have hqe : i / (64 / bpb) = j / (64 / bpb) :=
      Nat.le_antisymm (Nat.div_le_div_right (Nat.le_of_lt hij)) hq
    have hr : i % (64 / bpb) < j % (64 / bpb) := by
      have hi := Nat.div_add_mod i (64 / bpb)
      have hj := Nat.div_add_mod j (64 / bpb)
      have hx : 64 / bpb * (i / (64 / bpb)) = 64 / bpb * (j / (64 / bpb)) := by
        rw [hqe]
      omega
    have h3 : (i % (64 / bpb) + 1) * bpb ≤ j % (64 / bpb) * bpb :=
      Nat.mul_le_mul_right _ (Nat.succ_le_of_lt hr)
    have h4 : (i % (64 / bpb) + 1) * bpb = i % (64 / bpb) * bpb + bpb := by ring
    rw [hqe]
    omega

lemma bOff_disjoint (bpb : Nat) (hdvd : bpb ∣ 64) (hb : 0 < bpb) {i j : Nat}
    (hne : i ≠ j) :
    bOff bpb i + bpb ≤ bOff bpb j ∨ bOff bpb j + bpb ≤ bOff bpb i := by
  rcases Nat.lt_or_ge i j with h | h
  · exact Or.inl (bOff_step bpb hdvd hb h)
  · exact Or.inr (bOff_step bpb hdvd hb (lt_of_le_of_ne h (Ne.symm hne)))

lemma extractF_writeF_same (data bpb i v : Nat) :
    extractF (writeF data bpb i v) bpb i = v % 2 ^ bpb := by
  apply Nat.eq_of_testBit_eq
  intro k
  rw [extractF_testBit, writeF_testBit]
  rcases Nat.lt_or_ge k bpb with hk | hk
  · rw [if_pos (by omega)]
    have hd : decide (k < bpb) = true := by simpa using hk
    rw [hd, Nat.add_sub_cancel_left, Bool.true_and]
  · rw [if_neg (by omega)]
    have hd : decide (k < bpb) = false := by simpa using Nat.not_lt.mpr hk
    rw [hd, Bool.false_and]
    exact (Nat.testBit_eq_false_of_lt
      (lt_of_lt_of_le (Nat.mod_lt _ (Nat.pos_pow_of_pos _ (by norm_num)))
        (Nat.pow_le_pow_right (by norm_num) hk))).symm

lemma extractF_writeF_other (data bpb v : Nat) (hdvd : bpb ∣ 64) (hb : 0 < bpb)
    {i j : Nat} (hne : i ≠ j) :
    extractF (writeF data bpb i v) bpb j = extractF data bpb j := by
  apply Nat.eq_of_testBit_eq
  intro k
  rw [extractF_testBit, extractF_testBit, writeF_testBit]
  rcases Nat.lt_or_ge k bpb with hk | hk
  · rw [if_neg ?_]
    rcases bOff_disjoint bpb hdvd hb hne with h | h <;> omega
  · have hd : decide (k < bpb) = false := by simpa using Nat.not_lt.mpr hk
    rw [hd, Bool.false_and, Bool.false_and]

lemma extractF_lor (a b bpb i : Nat) :
    extractF (a ||| b) bpb i = extractF a bpb i ||| extractF b bpb i := by
  apply Nat.eq_of_testBit_eq
  intro k
  rw [Nat.testBit_lor, extractF_testBit, extractF_testBit, extractF_testBit,
    Nat.testBit_lor]
  cases hd : decide (k < bpb) <;> simp

lemma extractF_zero (bpb i : Nat) : extractF 0 bpb i = 0 := by
  unfold extractF
  rw [Nat.zero_shiftRight, Nat.zero_and]

lemma extractF_shiftLeft_self (bpb i v : Nat) (hv : v < 2 ^ bpb) :
    extractF (v <<< bOff bpb i) bpb i = v := by
  rw [extractF_eq_div_mod, Nat.shiftLeft_eq,
    Nat.mul_div_cancel v (Nat.pos_pow_of_pos _ (by norm_num)),
    Nat.mod_eq_of_lt hv]

lemma extractF_shiftLeft_other (bpb v : Nat) (hdvd : bpb ∣ 64) (hb : 0 < bpb)
    (hv : v < 2 ^ bpb) {i j : Nat} (hne : i ≠ j) :
    extractF (v <<< bOff bpb i) bpb j = 0 := by
  rw [extractF_eq_div_mod, Nat.shiftLeft_eq]
  rcases bOff_disjoint bpb hdvd hb hne with h | h
  · -- field j lies strictly above the value's bits
    have hlt : v * 2 ^ bOff bpb i < 2 ^ bOff bpb j := by
      calc v * 2 ^ bOff bpb i < 2 ^ bpb * 2 ^ bOff bpb i :=
            (Nat.mul_lt_mul_right (Nat.pos_pow_of_pos _ (by norm_num))).mpr hv
        _ = 2 ^ (bOff bpb i + bpb) := by rw [← pow_add, Nat.add_comm]
        _ ≤ 2 ^ bOff bpb j := Nat.pow_le_pow_right (by norm_num) h
    rw [Nat.div_eq_of_lt hlt, Nat.zero_mod]
  · -- the value sits at least bpb bits above field j
    have h1 : v * 2 ^ bOff bpb i =
        v * 2 ^ (bOff bpb i - bOff bpb j) * 2 ^ bOff bpb j := by
      rw [Nat.mul_assoc, ← pow_add]
      congr 2
      omega
    rw [h1, Nat.mul_div_cancel _ (Nat.pos_pow_of_pos (bOff bpb j) (by norm_num))]
    have h2 : v * 2 ^ (bOff bpb i - bOff bpb j) =
        v * 2 ^ (bOff bpb i - bOff bpb j - bpb) * 2 ^ bpb := by
      rw [Nat.mul_assoc, ← pow_add]
      congr 2
      omega
    rw [h2, Nat.mul_mod_left]

lemma orfold_extract (bpb : Nat) (g : Nat → Nat) (hdvd : bpb ∣ 64)
    (hb : 0 < bpb) (hg : ∀ k, g k < 2 ^ bpb) :
    ∀ n i, extractF
      ((List.range n).foldl (fun d k => d ||| (g k <<< bOff bpb k)) 0) bpb i =
      if i < n then g i else 0 := by
  intro n
  induction n with
  | zero =>
    intro i
    rw [if_neg (by omega)]
    exact extractF_zero bpb i
  | succ n ih =>
    intro i
    rw [List.range_succ, List.foldl_append, List.foldl_cons, List.foldl_nil,
      extractF_lor, ih]
    rcases Decidable.em (i = n) with he | he
    · subst he
      rw [if_neg (by omega), if_pos (by omega),
        extractF_shiftLeft_self bpb i (g i) (hg i), Nat.zero_or]
    · rw [extractF_shiftLeft_other bpb (g n) hdvd hb (hg n) (Ne.symm he),
        Nat.or_zero]
      rcases Nat.lt_or_ge i n with h | h
      · rw [if_pos h, if_pos (by omega)]
      · rw [if_neg (by omega), if_neg (by omega)]

lemma pack_term_norm (idx : Nat → Nat) (bpb : Nat) (hdvd : bpb ∣ 64)
    (hb : 0 < bpb) (k : Nat) :
    (((idx k &&& ((1 <<< bpb) - 1)) <<< ((k % (64 / bpb)) * bpb)) % 2 ^ 64) <<<
        (64 * (k / (64 / bpb))) =
      (idx k % 2 ^ bpb) <<< bOff bpb k := by
  have hmask : idx k &&& ((1 <<< bpb) - 1) = idx k % 2 ^ bpb := by
    rw [show (1 <<< bpb - 1 : Nat) = 2 ^ bpb - 1 from by rw [Nat.shiftLeft_eq, one_mul],
      Nat.and_pow_two_sub_one_eq_mod]
  have hval : (idx k % 2 ^ bpb) <<< ((k % (64 / bpb)) * bpb) < 2 ^ 64 := by
    rw [Nat.shiftLeft_eq]
    have h1 : idx k % 2 ^ bpb < 2 ^ bpb := Nat.mod_lt _ (Nat.pos_pow_of_pos _ (by norm_num))
    have h2 := bOff_within bpb k hdvd hb
    calc idx k % 2 ^ bpb * 2 ^ (k % (64 / bpb) * bpb)
        < 2 ^ bpb * 2 ^ (k % (64 / bpb) * bpb) :=
          (Nat.mul_lt_mul_right (Nat.pos_pow_of_pos _ (by norm_num))).mpr h1
      _ = 2 ^ (bpb + k % (64 / bpb) * bpb) := by rw [← pow_add]
      _ ≤ 2 ^ 64 := Nat.pow_le_pow_right (by norm_num) (by omega)
  rw [hmask, Nat.mod_eq_of_lt hval]
  unfold bOff
  rw [Nat.shiftLeft_eq, Nat.shiftLeft_eq, Nat.shiftLeft_eq, Nat.mul_assoc,
    ← pow_add, Nat.add_comm (k % (64 / bpb) * bpb) _]

lemma extractF_pack_flat (idx : Nat → Nat) (bpb : Nat) (hdvd : bpb ∣ 64)
    (hb : 0 < bpb) (i : Nat) (hi : i < 32768) :
    extractF (pack_indices_flat idx bpb) bpb i = idx i % 2 ^ bpb := by
  unfold pack_indices_flat
  rw [if_neg (Nat.pos_iff_ne_zero.mp hb)]
  dsimp only
  have hbody : (fun (data k : Nat) =>
      data ||| ((((idx k &&& ((1 <<< bpb) - 1)) <<< ((k % (64 / bpb)) * bpb)) % 2 ^ 64) <<<
        (64 * (k / (64 / bpb))))) =
      fun data k => data ||| ((idx k % 2 ^ bpb) <<< bOff bpb k) := by
    funext data k
    rw [pack_term_norm idx bpb hdvd hb k]
  rw [hbody, orfold_extract bpb (fun k => idx k % 2 ^ bpb) hdvd hb
    (fun k => Nat.mod_lt _ (Nat.pos_pow_of_pos _ (by norm_num))) 32768 i,
    if_pos hi]

lemma or_foldl_hoist (t : Nat → Nat) :
    ∀ (L : List Nat) (a : Nat),
      L.foldl (fun d k => d ||| t k) a = a ||| L.foldl (fun d k => d ||| t k) 0 := by
  intro L
  induction L with
  | nil => intro a; rw [List.foldl_nil, List.foldl_nil, Nat.or_zero]
  | cons x xs ih =>
    intro a
    rw [List.foldl_cons, List.foldl_cons, ih (a ||| t x), ih (0 ||| t x),
      Nat.zero_or, Nat.lor_assoc]

lemma shiftLeft_or_distrib (a b s : Nat) :
    (a ||| b) <<< s = (a <<< s) ||| (b <<< s) := by
  apply Nat.eq_of_testBit_eq
  intro k
  rw [Nat.testBit_lor, Nat.testBit_shiftLeft, Nat.testBit_shiftLeft,
    Nat.testBit_shiftLeft, Nat.testBit_lor]
  cases hd : decide (k ≥ s) <;> simp

lemma or_foldl_shift (u : Nat → Nat) (s : Nat) :
    ∀ L : List Nat,
      (L.foldl (fun a j => a ||| u j) 0) <<< s =
        L.foldl (fun a j => a ||| (u j <<< s)) 0 := by
  intro L
  induction L with
  | nil => rw [List.foldl_nil, List.foldl_nil, Nat.zero_shiftLeft]
  | cons x xs ih =>
    rw [List.foldl_cons, List.foldl_cons, Nat.zero_or, Nat.zero_or,
      or_foldl_hoist u xs (u x), or_foldl_hoist (fun j => u j <<< s) xs (u x <<< s),
      shiftLeft_or_distrib, ih]

lemma orfold_regroup (t : Nat → Nat) (per : Nat) :
    ∀ n, (List.range (n * per)).foldl (fun d k => d ||| t k) 0 =
      (List.range n).foldl
        (fun d w => d |||
          (List.range per).foldl (fun a j => a ||| t (w * per + j)) 0) 0 := by
  intro n
  induction n with
  | zero => rw [Nat.zero_mul]; rfl
  | succ n ih =>
    rw [show (n + 1) * per = n * per + per from by ring, List.range_add,
      List.foldl_append, List.foldl_map, ih, List.range_succ, List.foldl_append,
      List.foldl_cons, List.foldl_nil,
      or_foldl_hoist (fun k => t (n * per + k)) (List.range per) _]

lemma pack_indices_eq_flat (idx : Nat → Nat) (bpb : Nat) (hdvd : bpb ∣ 64)
    (hb : 0 < bpb) : pack_indices idx bpb = pack_indices_flat idx bpb := by
  have hbne : ¬ bpb = 0 := Nat.pos_iff_ne_zero.mp hb
  unfold pack_indices pack_indices_flat
  rw [if_neg hbne, if_neg hbne]
  dsimp only
  have hperpos : 0 < 64 / bpb := Nat.div_pos (Nat.le_of_dvd (by norm_num) hdvd) hb
  have hper64 : 64 / bpb * bpb = 64 := Nat.div_mul_cancel hdvd
  have hperdvd : 64 / bpb ∣ 32768 :=
    dvd_trans ⟨bpb, hper64.symm⟩ (by norm_num : (64 : Nat) ∣ 32768)
  obtain ⟨m, hm⟩ := hperdvd
  have hNW : (32768 + 64 / bpb - 1) / (64 / bpb) = m := by
    rw [hm, show 64 / bpb * m + 64 / bpb - 1 = 64 / bpb * m + (64 / bpb - 1) from by
      omega, Nat.mul_add_div hperpos, Nat.div_eq_of_lt (by omega), Nat.add_zero]
  rw [hNW, show List.range 32768 = List.range (m * (64 / bpb)) from by
    rw [Nat.mul_comm, ← hm], orfold_regroup _ (64 / bpb) m]
  apply List.foldl_ext
  intro d w hw
  have hwm : w < m := List.mem_range.mp hw
  have hbound : ∀ j, j < 64 / bpb → w * (64 / bpb) + j < 32768 := by
    intro j hj
    have h1 : (w + 1) * (64 / bpb) ≤ m * (64 / bpb) := Nat.mul_le_mul_right _ (by omega)
    have h2 : (w + 1) * (64 / bpb) = w * (64 / bpb) + 64 / bpb := by ring
    have h3 : 32768 = m * (64 / bpb) := by rw [Nat.mul_comm, ← hm]
    omega
  congr 1
  have hguard : (List.range (64 / bpb)).foldl
      (fun word j => if w * (64 / bpb) + j < 32768 then
        word ||| ((idx (w * (64 / bpb) + j) &&& (1 <<< bpb - 1)) <<< (j * bpb)) % 2 ^ 64
      else word) 0 =
      (List.range (64 / bpb)).foldl
      (fun word j =>
        word ||| ((idx (w * (64 / bpb) + j) &&& (1 <<< bpb - 1)) <<< (j * bpb)) % 2 ^ 64)
      0 := by
    apply List.foldl_ext
    intro a j hj
    rw [if_pos (hbound j (List.mem_range.mp hj))]
  rw [hguard,
    or_foldl_shift
      (fun j => ((idx (w * (64 / bpb) + j) &&& (1 <<< bpb - 1)) <<< (j * bpb)) % 2 ^ 64)
      (64 * w)]
  apply List.foldl_ext
  intro a j hj
  have hjper : j < 64 / bpb := List.mem_range.mp hj
  have hmod : (w * (64 / bpb) + j) % (64 / bpb) = j := by
    rw [Nat.mul_comm w (64 / bpb), Nat.mul_add_mod, Nat.mod_eq_of_lt hjper]
  have hdiv : (w * (64 / bpb) + j) / (64 / bpb) = w := by
    rw [Nat.mul_comm w (64 / bpb), Nat.mul_add_div hperpos,
      Nat.div_eq_of_lt hjper, Nat.add_zero]
  rw [hmod, hdiv]

example : True := trivial

lemma set_palette_index_palette (c : CompressedChunk) (bi v : Nat) :
    (c.set_palette_index bi v).palette = c.palette := by
  unfold CompressedChunk.set_palette_index
  split_ifs <;> rfl

lemma set_palette_index_bpb (c : CompressedChunk) (bi v : Nat) :
    (c.set_palette_index bi v).bits_per_block = c.bits_per_block := by
  unfold CompressedChunk.set_palette_index
  split_ifs <;> rfl

lemma set_palette_index_data (c : CompressedChunk) (hb : 0 < c.bits_per_block)
    (hdvd : c.bits_per_block ∣ 64) (bi v : Nat) :
    (c.set_palette_index bi v).data = writeF c.data c.bits_per_block bi v := by
  unfold CompressedChunk.set_palette_index writeF
  rw [if_neg (Nat.pos_iff_ne_zero.mp hb)]
  dsimp only
  have hput := pack_term_norm (fun _ => v) c.bits_per_block hdvd hb bi
  have hmask_lt : (1 <<< c.bits_per_block - 1 : Nat) < 2 ^ c.bits_per_block := by
    rw [Nat.shiftLeft_eq, one_mul]
    have : 0 < (2 : Nat) ^ c.bits_per_block := Nat.pos_pow_of_pos _ (by norm_num)
    omega
  have hclear := pack_term_norm (fun _ => (1 <<< c.bits_per_block - 1 : Nat))
    c.bits_per_block hdvd hb bi
  rw [Nat.and_self] at hclear
  rw [hput, hclear,
    Nat.mod_eq_of_lt (by rwa [Nat.shiftLeft_eq, one_mul] at hmask_lt ⊢),
    show (1 <<< c.bits_per_block - 1 : Nat) = 2 ^ c.bits_per_block - 1 from by
      rw [Nat.shiftLeft_eq, one_mul]]

lemma extractF_lt (data bpb i : Nat) (hb : 0 < bpb) :
    extractF data bpb i < 2 ^ bpb := by
  rw [extractF_eq_div_mod]
  exact Nat.mod_lt _ (Nat.pos_pow_of_pos _ (by norm_num))

lemma bits_needed_le16 (n : Nat) : bits_needed n ≤ 16 := by
  unfold bits_needed
  split_ifs <;> norm_num

lemma bits_needed_dvd_of_pos (n : Nat) (h : 0 < bits_needed n) :
    bits_needed n ∣ 64 := by
  unfold bits_needed at h ⊢
  split_ifs at h ⊢ <;> norm_num at h ⊢

lemma le_pow_bits_needed (n : Nat) (h : n ≤ 65536) : n ≤ 2 ^ bits_needed n := by
  unfold bits_needed
  split_ifs <;> norm_num <;> omega

lemma bits_needed_eq_zero_iff (n : Nat) : bits_needed n = 0 ↔ n ≤ 1 := by
  unfold bits_needed
  split_ifs <;> norm_num <;> omega

lemma block_index_lt {x y z : Nat} (hx : x < 32) (hy : y < 32) (hz : z < 32) :
    block_index x y z < 32768 := by
  unfold block_index
  omega

lemma block_index_inj {x y z x' y' z' : Nat} (hx : x < 32) (hy : y < 32)
    (hz : z < 32) (hx' : x' < 32) (hy' : y' < 32) (hz' : z' < 32)
    (h : block_index x y z = block_index x' y' z') : x = x' ∧ y = y' ∧ z = z' := by
  unfold block_index at h
  omega

lemma resize_storage_palette (c : CompressedChunk) (nb : Nat) :
    (c.resize_storage nb).palette = c.palette := by
  unfold CompressedChunk.resize_storage
  split_ifs <;> rfl

lemma resize_storage_bpb_of_ne (c : CompressedChunk) (nb : Nat)
    (h : c.bits_per_block ≠ nb) : (c.resize_storage nb).bits_per_block = nb := by
  unfold CompressedChunk.resize_storage
  rw [if_neg h]

lemma resize_storage_extract (c : CompressedChunk) (nb : Nat)
    (h : c.bits_per_block ≠ nb) (hnb : 0 < nb) (hnbdvd : nb ∣ 64)
    (holddvd : 0 < c.bits_per_block → c.bits_per_block ∣ 64)
    (hble : c.bits_per_block ≤ 16) (hbnb : c.bits_per_block ≤ nb)
    (i : Nat) (hi : i < 32768) :
    extractF (c.resize_storage nb).data nb i =
      if 0 < c.bits_per_block then extractF c.data c.bits_per_block i else 0 := by
  unfold CompressedChunk.resize_storage
  rw [if_neg h]
  dsimp only
  rw [pack_indices_eq_flat _ nb hnbdvd hnb, extractF_pack_flat _ nb hnbdvd hnb i hi]
  split_ifs with hb0
  · rw [get_palette_index_eq_extractF c hb0 (holddvd hb0)]
    have hv : extractF c.data c.bits_per_block i < 2 ^ c.bits_per_block :=
      extractF_lt _ _ _ hb0
    rw [Nat.mod_eq_of_lt (lt_of_lt_of_le hv (Nat.pow_le_pow_right (by norm_num) hble)),
      Nat.mod_eq_of_lt (lt_of_lt_of_le hv (Nat.pow_le_pow_right (by norm_num) hbnb))]
  · rw [Nat.zero_mod]

lemma get_block_in_bounds (c : CompressedChunk) {x y z : Nat} (hx : x < 32)
    (hy : y < 32) (hz : z < 32) :
    c.get_block x y z = c.palette.getD (c.get_palette_index (block_index x y z)) 0 := by
  unfold CompressedChunk.get_block
  rw [if_neg (by omega)]

lemma getD_eq_getElem (l : List Nat) {i : Nat} (h : i < l.length) :
    l.getD i 0 = l[i] := by
  rw [List.getD_eq_getElem?_getD, List.getElem?_eq_getElem h]
  rfl

/-- **C9.**  On a well-formed chunk, `set_block` followed by `get_block` at
the written coordinate returns the written id, and `get_block` at every
other in-bounds coordinate is unchanged — including when the write appends
a palette entry and repacks the buffer to a wider width. -/
theorem C9_set_block_get_block (c : CompressedChunk) (hWF : WFChunk c)
    (x y z id : Nat) (hx : x < 32) (hy : y < 32) (hz : z < 32) :
    (c.set_block x y z id).get_block x y z = id ∧
    (∀ x' y' z', x' < 32 → y' < 32 → z' < 32 → (x', y', z') ≠ (x, y, z) →
      (c.set_block x y z id).get_block x' y' z' = c.get_block x' y' z') := by
  obtain ⟨hbpb, hlen0, hlen, hfields⟩ := hWF
  have hb16 : c.bits_per_block ≤ 16 := hbpb ▸ bits_needed_le16 _
  have hlenpow : c.palette.length ≤ 2 ^ c.bits_per_block :=
    hbpb ▸ le_pow_bits_needed _ (by omega)
  have hbidlt := block_index_lt hx hy hz
  have hbne' : ∀ x' y' z', x' < 32 → y' < 32 → z' < 32 → (x', y', z') ≠ (x, y, z) →
      block_index x' y' z' ≠ block_index x y z := by
    intro x' y' z' hx' hy' hz' hne heq
    obtain ⟨e1, e2, e3⟩ := block_index_inj hx' hy' hz' hx hy hz heq
    exact hne (by simp [e1, e2, e3])
  unfold CompressedChunk.set_block
  rw [if_neg (by omega)]
  cases hfind : c.palette.findIdx? (fun b => b == id) with
  | some idx =>
    dsimp only
    obtain ⟨hidxlt, hp, -⟩ := List.findIdx?_eq_some_iff_getElem.mp hfind
    have hidval : c.palette[idx] = id := by simpa using hp
    by_cases hb0 : c.bits_per_block = 0
    · -- single-entry palette: the write is a no-op on the data
      have hl1 : c.palette.length = 1 := by
        have := (bits_needed_eq_zero_iff c.palette.length).mp (hb0 ▸ hbpb.symm)
        omega
      have hidx0 : idx = 0 := by omega
      subst hidx0
      have hspi : ∀ bi v, c.set_palette_index bi v = c := by
        intro bi v
        unfold CompressedChunk.set_palette_index
        rw [if_pos hb0]
      rw [hspi]
      constructor
      · rw [get_block_in_bounds c hx hy hz]
        unfold CompressedChunk.get_palette_index
        rw [if_pos hb0, getD_eq_getElem _ (by omega)]
        exact hidval
      · intro x' y' z' _ _ _ _
        rfl
    · have hbpos : 0 < c.bits_per_block := Nat.pos_of_ne_zero hb0
      have hdvd : c.bits_per_block ∣ 64 := hbpb ▸ bits_needed_dvd_of_pos _ (hbpb ▸ hbpos)
      have hidxpow : idx < 2 ^ c.bits_per_block := by omega
      constructor
      · rw [get_block_in_bounds _ hx hy hz, set_palette_index_palette,
          get_palette_index_eq_extractF _ (by rwa [set_palette_index_bpb])
            (by rwa [set_palette_index_bpb]),
          set_palette_index_bpb, set_palette_index_data c hbpos hdvd,
          extractF_writeF_same, Nat.mod_eq_of_lt hidxpow,
          getD_eq_getElem _ (by omega), hidval]
      · intro x' y' z' hx' hy' hz' hne
        rw [get_block_in_bounds _ hx' hy' hz', set_palette_index_palette,
          get_palette_index_eq_extractF _ (by rwa [set_palette_index_bpb])
            (by rwa [set_palette_index_bpb]),
          set_palette_index_bpb, set_palette_index_data c hbpos hdvd,
          extractF_writeF_other _ _ _ hdvd hbpos
            (fun h => hbne' x' y' z' hx' hy' hz' hne h.symm),
          get_block_in_bounds _ hx' hy' hz',
          get_palette_index_eq_extractF _ hbpos hdvd]
  | none =>
    dsimp only
    simp only [List.length_append, List.length_cons, List.length_nil,
      Nat.add_sub_cancel]
    have hgetD_last : (c.palette ++ [id]).getD c.palette.length 0 = id := by
      rw [List.getD_eq_getElem?_getD, List.getElem?_concat_length]
      rfl
    have hgetD_old : ∀ v, v < c.palette.length →
        (c.palette ++ [id]).getD v 0 = c.palette.getD v 0 := fun v hv =>
      List.getD_append _ _ 0 v hv
    have hLpow : c.palette.length + 1 ≤ 2 ^ bits_needed (c.palette.length + 1) :=
      le_pow_bits_needed _ (by omega)
    by_cases hlt : c.bits_per_block < bits_needed (c.palette.length + 1)
    · -- the appended entry forces a repack to a wider width
      rw [if_pos hlt]
      have hreqpos : 0 < bits_needed (c.palette.length + 1) := by omega
      have hreqdvd := bits_needed_dvd_of_pos _ hreqpos
      set c1 : CompressedChunk := ⟨c.palette ++ [id], c.data, c.bits_per_block⟩
        with hc1
      have hc1ne : c1.bits_per_block ≠ bits_needed (c.palette.length + 1) :=
        Nat.ne_of_lt hlt
      set c2 := c1.resize_storage (bits_needed (c.palette.length + 1)) with hc2
      have hc2pal : c2.palette = c.palette ++ [id] := resize_storage_palette c1 _
      have hc2bpb : c2.bits_per_block = bits_needed (c.palette.length + 1) :=
        resize_storage_bpb_of_ne c1 _ hc1ne
      have hc2ex : ∀ i, i < 32768 → extractF c2.data c2.bits_per_block i =
          if 0 < c.bits_per_block then extractF c.data c.bits_per_block i else 0 := by
        intro i hi
        rw [hc2bpb]
        exact resize_storage_extract c1 _ hc1ne hreqpos hreqdvd
          (fun h => hbpb ▸ bits_needed_dvd_of_pos _ (hbpb ▸ h)) hb16
          (Nat.le_of_lt hlt) i hi
      have hc2pos : 0 < c2.bits_per_block := hc2bpb ▸ hreqpos
      have hc2dvd : c2.bits_per_block ∣ 64 := hc2bpb ▸ hreqdvd
      constructor
      · rw [get_block_in_bounds _ hx hy hz, set_palette_index_palette,
          get_palette_index_eq_extractF _ (by rwa [set_palette_index_bpb])
            (by rwa [set_palette_index_bpb]),
          set_palette_index_bpb, set_palette_index_data c2 hc2pos hc2dvd,
          extractF_writeF_same, hc2pal, hc2bpb,
          Nat.mod_eq_of_lt (by omega), hgetD_last]
      · intro x' y' z' hx' hy' hz' hne
        rw [get_block_in_bounds _ hx' hy' hz', set_palette_index_palette,
          get_palette_index_eq_extractF _ (by rwa [set_palette_index_bpb])
            (by rwa [set_palette_index_bpb]),
          set_palette_index_bpb, set_palette_index_data c2 hc2pos hc2dvd,
          extractF_writeF_other _ _ _ hc2dvd hc2pos
            (fun h => hbne' x' y' z' hx' hy' hz' hne h.symm),
          hc2pal, hc2ex _ (block_index_lt hx' hy' hz'),
          get_block_in_bounds _ hx' hy' hz']
        by_cases hb0 : 0 < c.bits_per_block
        · rw [if_pos hb0, get_palette_index_eq_extractF _ hb0
            (hbpb ▸ bits_needed_dvd_of_pos _ (hbpb ▸ hb0)),
            hgetD_old _ (hfields _ (block_index_lt hx' hy' hz'))]
        · rw [if_neg hb0]
          unfold CompressedChunk.get_palette_index
          rw [if_pos (by omega), hgetD_old _ (by omega)]
    · -- the appended entry still fits at the current width
      rw [if_neg hlt]
      have hreqpos : 0 < bits_needed (c.palette.length + 1) := by
        rcases Nat.eq_zero_or_pos (bits_needed (c.palette.length + 1)) with h0 | h
        · have := (bits_needed_eq_zero_iff (c.palette.length + 1)).mp h0
          omega
        · exact h
      have hbpos : 0 < c.bits_per_block := by omega
      have hdvd : c.bits_per_block ∣ 64 :=
        hbpb ▸ bits_needed_dvd_of_pos _ (hbpb ▸ hbpos)
      set c1 : CompressedChunk := ⟨c.palette ++ [id], c.data, c.bits_per_block⟩
        with hc1
      have hc1pos : 0 < c1.bits_per_block := hbpos
      have hc1dvd : c1.bits_per_block ∣ 64 := hdvd
      have hLlt : c.palette.length < 2 ^ c.bits_per_block := by
        have h2 : (2:Nat) ^ bits_needed (c.palette.length + 1) ≤ 2 ^ c.bits_per_block :=
          Nat.pow_le_pow_right (by norm_num) (by omega)
        omega
      constructor
      · rw [get_block_in_bounds _ hx hy hz, set_palette_index_palette,
          get_palette_index_eq_extractF _ (by rwa [set_palette_index_bpb])
            (by rwa [set_palette_index_bpb]),
          set_palette_index_bpb, set_palette_index_data c1 hc1pos hc1dvd,
          extractF_writeF_same]
        show (c.palette ++ [id]).getD (c.palette.length % 2 ^ c.bits_per_block) 0 = id
        rw [Nat.mod_eq_of_lt hLlt, hgetD_last]
      · intro x' y' z' hx' hy' hz' hne
        rw [get_block_in_bounds _ hx' hy' hz', set_palette_index_palette,
          get_palette_index_eq_extractF _ (by rwa [set_palette_index_bpb])
            (by rwa [set_palette_index_bpb]),
          set_palette_index_bpb, set_palette_index_data c1 hc1pos hc1dvd,
          extractF_writeF_other _ _ _ hc1dvd hc1pos
            (fun h => hbne' x' y' z' hx' hy' hz' hne h.symm),
          get_block_in_bounds _ hx' hy' hz',
          get_palette_index_eq_extractF _ hbpos hdvd]
        show (c.palette ++ [id]).getD (extractF c.data c.bits_per_block _) 0 = _
        rw [hgetD_old _ (hfields _ (block_index_lt hx' hy' hz'))]

/-- Witness for `C9_set_block_get_block` on the freshly created chunk. -/
theorem C9_witness :
    ((CompressedChunk.new).set_block 1 2 3 7).get_block 1 2 3 = 7 ∧
    ((CompressedChunk.new).set_block 1 2 3 7).get_block 0 0 0 =
      (CompressedChunk.new).get_block 0 0 0 := by
  have hWF : WFChunk CompressedChunk.new := by
    refine ⟨rfl, by decide, by decide, fun i _ => ?_⟩
    show extractF 0 0 i < 1
    rw [extractF_zero]
    exact Nat.one_pos
  have h := C9_set_block_get_block CompressedChunk.new hWF 1 2 3 7
    (by decide) (by decide) (by decide)
  exact ⟨h.1, h.2 0 0 0 (by decide) (by decide) (by decide) (by decide)⟩
/-! ## from_blocks round trip and index orientation (C4) -/

lemma bOff_16 (k : Nat) : bOff 16 k = 16 * k := by
  unfold bOff
  omega

lemma extract16_eq (p k : Nat) : (p >>> (16 * k)) &&& 65535 = extractF p 16 k := by
  unfold extractF
  rw [bOff_16, show (1 <<< 16 - 1 : Nat) = 65535 from by decide]

lemma extractF_of_lt (a n : Nat) (ha : a < 2 ^ (16 * n)) : extractF a 16 n = 0 := by
  unfold extractF
  rw [bOff_16, Nat.shiftRight_eq_div_pow, Nat.div_eq_of_lt ha, Nat.zero_and]

lemma fbScan_inv (blocks : Nat → Nat) :
    ∀ n, n ≤ 32768 →
      (((List.range n).foldl (fbStep blocks) ([], 0)).2 < 2 ^ (16 * n)) ∧
      (((List.range n).foldl (fbStep blocks) ([], 0)).1.length ≤ n) ∧
      (∀ k, k < n →
        extractF (((List.range n).foldl (fbStep blocks) ([], 0)).2) 16 k <
          ((List.range n).foldl (fbStep blocks) ([], 0)).1.length ∧
        ((List.range n).foldl (fbStep blocks) ([], 0)).1.getD
          (extractF (((List.range n).foldl (fbStep blocks) ([], 0)).2) 16 k) 0 =
          blocks k) := by
  intro n
  induction n with
  | zero =>
    intro _
    exact ⟨by norm_num, by simp, fun k hk => absurd hk (Nat.not_lt_zero k)⟩
  | succ n ih =>
    intro hn
    obtain ⟨hlt2, hlen, hinv⟩ := ih (by omega)
    rw [List.range_succ, List.foldl_append, List.foldl_cons, List.foldl_nil]
    generalize hst : (List.range n).foldl (fbStep blocks) ([], 0) = st
      at hlt2 hlen hinv ⊢
    unfold fbStep
    cases hfind : st.1.findIdx? (fun b => b == blocks n) with
    | some idx =>
      dsimp only
      obtain ⟨hidxlt, hp, -⟩ := List.findIdx?_eq_some_iff_getElem.mp hfind
      have hidval : st.1[idx] = blocks n := by simpa using hp
      have hidx16 : idx % 2 ^ 16 = idx := Nat.mod_eq_of_lt (by omega)
      refine ⟨?_, by omega, ?_⟩
      · apply Nat.or_lt_two_pow
        · exact lt_of_lt_of_le hlt2 (Nat.pow_le_pow_right (by norm_num) (by omega))
        · rw [Nat.shiftLeft_eq]
          calc idx % 2 ^ 16 * 2 ^ (16 * n)
              < 2 ^ 16 * 2 ^ (16 * n) :=
                (Nat.mul_lt_mul_right (Nat.pos_pow_of_pos _ (by norm_num))).mpr
                  (Nat.mod_lt _ (by norm_num))
            _ ≤ 2 ^ (16 * (n + 1)) := by
                rw [← pow_add]
                exact Nat.pow_le_pow_right (by norm_num) (by omega)
      · intro k hk
        rw [show (16 * n) = bOff 16 n from (bOff_16 n).symm, extractF_lor]
        rcases Decidable.em (k = n) with he | he
        · subst he
          rw [extractF_of_lt _ _ hlt2,
            extractF_shiftLeft_self 16 k _ (Nat.mod_lt _ (by norm_num)),
            Nat.zero_or, hidx16]
          exact ⟨by omega, by rw [getD_eq_getElem _ (by omega)]; exact hidval⟩
        · rw [extractF_shiftLeft_other 16 _ (by norm_num) (by norm_num)
            (Nat.mod_lt _ (by norm_num)) (fun h => he h.symm), Nat.or_zero]
          exact hinv k (by omega)
    | none =>
      dsimp only
      have hlen16 : st.1.length % 2 ^ 16 = st.1.length := Nat.mod_eq_of_lt (by omega)
      refine ⟨?_, by rw [List.length_append]; simp; omega, ?_⟩
      · apply Nat.or_lt_two_pow
        · exact lt_of_lt_of_le hlt2 (Nat.pow_le_pow_right (by norm_num) (by omega))
        · rw [Nat.shiftLeft_eq]
          calc st.1.length % 2 ^ 16 * 2 ^ (16 * n)
              < 2 ^ 16 * 2 ^ (16 * n) :=
                (Nat.mul_lt_mul_right (Nat.pos_pow_of_pos _ (by norm_num))).mpr
                  (Nat.mod_lt _ (by norm_num))
            _ ≤ 2 ^ (16 * (n + 1)) := by
                rw [← pow_add]
                exact Nat.pow_le_pow_right (by norm_num) (by omega)
      · intro k hk
        rw [show (16 * n) = bOff 16 n from (bOff_16 n).symm, extractF_lor]
        rcases Decidable.em (k = n) with he | he
        · subst he
          rw [extractF_of_lt _ _ hlt2,
            extractF_shiftLeft_self 16 k _ (Nat.mod_lt _ (by norm_num)),
            Nat.zero_or, hlen16]
          refine ⟨by rw [List.length_append]; simp, ?_⟩
          rw [List.getD_eq_getElem?_getD, List.getElem?_concat_length]
          rfl
        · rw [extractF_shiftLeft_other 16 _ (by norm_num) (by norm_num)
            (Nat.mod_lt _ (by norm_num)) (fun h => he h.symm), Nat.or_zero]
          obtain ⟨hlt', hgd⟩ := hinv k (by omega)
          refine ⟨by rw [List.length_append]; simp; omega, ?_⟩
          rw [List.getD_append _ _ 0 _ hlt', hgd]

lemma from_blocks_eq (blocks : Nat → Nat) :
    CompressedChunk.from_blocks blocks =
      ⟨(fbScan blocks).1,
       if bits_needed (fbScan blocks).1.length = 0 then 0
       else pack_indices (fun i => ((fbScan blocks).2 >>> (16 * i)) &&& 65535)
         (bits_needed (fbScan blocks).1.length),
       bits_needed (fbScan blocks).1.length⟩ := rfl

lemma mk_palette (p : List Nat) (d b : Nat) :
    (CompressedChunk.mk p d b).palette = p := rfl

lemma mk_data (p : List Nat) (d b : Nat) :
    (CompressedChunk.mk p d b).data = d := rfl

lemma mk_bpb (p : List Nat) (d b : Nat) :
    (CompressedChunk.mk p d b).bits_per_block = b := rfl

lemma gpi_zero_bpb (c : CompressedChunk) (h : c.bits_per_block = 0) (i : Nat) :
    c.get_palette_index i = 0 := by
  unfold CompressedChunk.get_palette_index
  rw [if_pos h]

lemma get_block_of_scan (blocks : Nat → Nat) (pal : List Nat) (packed : Nat)
    {x y z : Nat} (hx : x < 32) (hy : y < 32) (hz : z < 32)
    (hlen : pal.length ≤ 32768)
    (hidx_lt : extractF packed 16 (block_index x y z) < pal.length)
    (hgd : pal.getD (extractF packed 16 (block_index x y z)) 0 =
      blocks (block_index x y z)) :
    (CompressedChunk.mk pal
      (if bits_needed pal.length = 0 then 0
       else pack_indices (fun i => (packed >>> (16 * i)) &&& 65535)
         (bits_needed pal.length))
      (bits_needed pal.length)).get_block x y z =
      blocks (block_index x y z) := by
  by_cases hb0 : bits_needed pal.length = 0
  · have hle1 : pal.length ≤ 1 := (bits_needed_eq_zero_iff _).mp hb0
    rw [get_block_in_bounds _ hx hy hz, gpi_zero_bpb _ hb0, mk_palette]
    have h0 : extractF packed 16 (block_index x y z) = 0 := by omega
    rw [h0] at hgd
    exact hgd
  · have hbpos : 0 < bits_needed pal.length := Nat.pos_of_ne_zero hb0
    have hdvd := bits_needed_dvd_of_pos _ hbpos
    have hlenpow : pal.length ≤ 2 ^ bits_needed pal.length :=
      le_pow_bits_needed _ (by omega)
    rw [get_block_in_bounds _ hx hy hz,
      get_palette_index_eq_extractF _ hbpos hdvd, mk_palette, mk_data, mk_bpb,
      if_neg hb0, pack_indices_eq_flat _ _ hdvd hbpos,
      extractF_pack_flat _ _ hdvd hbpos _ (block_index_lt hx hy hz)]
    simp only [extract16_eq]
    rw [Nat.mod_eq_of_lt (lt_of_lt_of_le hidx_lt hlenpow)]
    exact hgd

lemma from_blocks_get_block (blocks : Nat → Nat) {x y z : Nat}
    (hx : x < 32) (hy : y < 32) (hz : z < 32) :
    (CompressedChunk.from_blocks blocks).get_block x y z =
      blocks (block_index x y z) := by
  have hscan : (List.range 32768).foldl (fbStep blocks) ([], 0) = fbScan blocks := rfl
  obtain ⟨hlt2, hlen, hinv⟩ := fbScan_inv blocks 32768 le_rfl
  rw [hscan] at hlt2 hlen hinv
  obtain ⟨hidx_lt, hgd⟩ := hinv (block_index x y z) (block_index_lt hx hy hz)
  rw [from_blocks_eq]
  exact get_block_of_scan blocks (fbScan blocks).1 (fbScan blocks).2 hx hy hz
    hlen hidx_lt hgd

/-- C4: the claim's spec index formula `z*1024 + y*32 + x` disagrees with
the store, which packs `x`-major: for the dense input with block 5 at
linear index 1 the store reads 5 at `(x,y,z) = (0,0,1)`, while the spec's
formula points at entry `1024`, which is air. -/
theorem C4_counterexample :
    ¬ ((CompressedChunk.from_blocks c4blocks).get_block 0 0 1 =
      c4blocks (1 * 1024 + 0 * 32 + 0)) := by
  rw [from_blocks_get_block c4blocks (by decide) (by decide) (by decide)]
  decide

/-- C4 (amended): for every dense array and every in-bounds coordinate,
`from_blocks` followed by `get_block (x,y,z)` returns entry
`x*1024 + y*32 + z` — the linear index is x-major, not the spec's
`z*1024 + y*32 + x`. -/
theorem C4_amended (blocks : Nat → Nat) (x y z : Nat)
    (hx : x < 32) (hy : y < 32) (hz : z < 32) :
    (CompressedChunk.from_blocks blocks).get_block x y z =
      blocks (x * 1024 + y * 32 + z) := by
  rw [from_blocks_get_block blocks hx hy hz]
  congr 1
  unfold block_index
  ring

/-- Witness for `C4_amended` at the counterexample input and `(0,0,1)`. -/
theorem C4_amended_witness :
    (CompressedChunk.from_blocks c4blocks).get_block 0 0 1 =
      c4blocks (0 * 1024 + 0 * 32 + 1) :=
  C4_amended c4blocks 0 0 1 (by decide) (by decide) (by decide)

/-! ## Lemmas: ambient occlusion (C6), LOD downsampling (C8), light propagation (C7, C10) -/

/-- C6: both side samples of `(0,0,0)`, face 0, corner 0 are opaque under
`c6grid`, yet the ambient-occlusion value is not 0 (it is 0.5): the code
returns 0 only when the diagonal is also opaque. -/
theorem C6_counterexample :
    (aoSamples c6grid 0 0 0 0 0).1 = true ∧
    (aoSamples c6grid 0 0 0 0 0).2.1 = true ∧
    ¬ (calculate_ambient_occlusion c6grid 0 0 0 0 0 = 0) := by
  refine ⟨by decide, by decide, ?_⟩
  have h : calculate_ambient_occlusion c6grid 0 0 0 0 0 =
      aoFromSamples true true false := by
    have h1 : aoChk c6grid 0 0 0 1 0 0 = true := by decide
    have h2 : aoChk c6grid 0 0 0 0 1 0 = true := by decide
    have h3 : aoChk c6grid 0 0 0 1 1 0 = false := by decide
    unfold calculate_ambient_occlusion
    rw [show aoDeltas 0 0 = some ((1,0,0),(0,1,0),(1,1,0)) from rfl]
    dsimp only
    rw [h1, h2, h3]
  rw [h]
  unfold aoFromSamples
  norm_num

/-- C6 (amended): for every opacity grid, voxel and valid `(face, corner)`
pair, with `(s1, s2, d)` the two side samples and the diagonal sample:
if all three are opaque the value is 0; if both sides are opaque but the
diagonal is not, the value is 0.5; otherwise it is `1 - count/4` where
`count` is the number of opaque samples. -/
theorem C6_amended (opq : Nat → Nat → Nat → Bool) (x y z face corner : Nat)
    (hf : face < 6) (hc : corner < 4) :
    ((aoSamples opq x y z face corner).1 = true →
      (aoSamples opq x y z face corner).2.1 = true →
      (aoSamples opq x y z face corner).2.2 = true →
      calculate_ambient_occlusion opq x y z face corner = 0) ∧
    ((aoSamples opq x y z face corner).1 = true →
      (aoSamples opq x y z face corner).2.1 = true →
      (aoSamples opq x y z face corner).2.2 = false →
      calculate_ambient_occlusion opq x y z face corner = 1/2) ∧
    (¬ ((aoSamples opq x y z face corner).1 = true ∧
        (aoSamples opq x y z face corner).2.1 = true) →
      calculate_ambient_occlusion opq x y z face corner =
        1 - (((if (aoSamples opq x y z face corner).1 then 1 else 0) +
          (if (aoSamples opq x y z face corner).2.1 then 1 else 0) +
          (if (aoSamples opq x y z face corner).2.2 then 1 else 0) : ℚ) / 4)) := by
  have hsome : ∃ ds, aoDeltas face corner = some ds := by
    interval_cases face <;> interval_cases corner <;> exact ⟨_, rfl⟩
  obtain ⟨⟨⟨dx1,dy1,dz1⟩,⟨dx2,dy2,dz2⟩,⟨dx3,dy3,dz3⟩⟩, hds⟩ := hsome
  unfold calculate_ambient_occlusion aoSamples
  rw [hds]
  dsimp only
  generalize aoChk opq x y z dx1 dy1 dz1 = s1
  generalize aoChk opq x y z dx2 dy2 dz2 = s2
  generalize aoChk opq x y z dx3 dy3 dz3 = d
  unfold aoFromSamples
  cases s1 <;> cases s2 <;> cases d <;> norm_num

/-- Witness for `C6_amended` at the counterexample grid and corner. -/
theorem C6_amended_witness :
    ((aoSamples c6grid 0 0 0 0 0).1 = true →
      (aoSamples c6grid 0 0 0 0 0).2.1 = true →
      (aoSamples c6grid 0 0 0 0 0).2.2 = true →
      calculate_ambient_occlusion c6grid 0 0 0 0 0 = 0) ∧
    ((aoSamples c6grid 0 0 0 0 0).1 = true →
      (aoSamples c6grid 0 0 0 0 0).2.1 = true →
      (aoSamples c6grid 0 0 0 0 0).2.2 = false →
      calculate_ambient_occlusion c6grid 0 0 0 0 0 = 1/2) ∧
    (¬ ((aoSamples c6grid 0 0 0 0 0).1 = true ∧
        (aoSamples c6grid 0 0 0 0 0).2.1 = true) →
      calculate_ambient_occlusion c6grid 0 0 0 0 0 =
        1 - (((if (aoSamples c6grid 0 0 0 0 0).1 then 1 else 0) +
          (if (aoSamples c6grid 0 0 0 0 0).2.1 then 1 else 0) +
          (if (aoSamples c6grid 0 0 0 0 0).2.2 then 1 else 0) : ℚ) / 4)) :=
  C6_amended c6grid 0 0 0 0 0 (by decide) (by decide)

/-- C8: the downsampled cell is 1, although 5 is a non-air type occurring
in the cell strictly more often (four times against one): the fifth
distinct type arrives after the 4-type cap and its occurrences are
ignored, so the cell is not the most common non-air type. -/
theorem C8_counterexample :
    downsample_cell c8voxels 0 0 0 2 = 1 ∧
    (cellBlocks c8voxels 0 0 0 2).count 1 <
      (cellBlocks c8voxels 0 0 0 2).count 5 := by
  decide

lemma firstSeen_append (L : List Nat) (b : Nat) :
    firstSeen (L ++ [b]) =
      if b = 0 ∨ b ∈ firstSeen L then firstSeen L else firstSeen L ++ [b] := by
  unfold firstSeen
  rw [List.foldl_append, List.foldl_cons, List.foldl_nil]

lemma mem_firstSeen (L : List Nat) : ∀ b, b ∈ firstSeen L ↔ b ∈ L ∧ b ≠ 0 := by
  induction L using List.reverseRecOn with
  | nil => intro b; simp [firstSeen]
  | append_singleton P c ih =>
    intro b
    rw [firstSeen_append]
    by_cases hc : c = 0 ∨ c ∈ firstSeen P
    · rw [if_pos hc, ih b]
      simp only [List.mem_append, List.mem_singleton]
      constructor
      · rintro ⟨h, h0⟩
        exact ⟨Or.inl h, h0⟩
      · rintro ⟨h | h, h0⟩
        · exact ⟨h, h0⟩
        · subst h
          rcases hc with h0' | hmem
          · exact absurd h0' h0
          · exact ⟨((ih b).mp hmem).1, h0⟩
    · rw [if_neg hc]
      push_neg at hc
      constructor
      · intro h
        rcases List.mem_append.mp h with h | h
        · have := (ih b).mp h
          exact ⟨List.mem_append_left _ this.1, this.2⟩
        · have hb : b = c := List.mem_singleton.mp h
          subst hb
          exact ⟨List.mem_append_right _ (List.mem_singleton.mpr rfl), hc.1⟩
      · rintro ⟨hbm, hb0⟩
        rcases List.mem_append.mp hbm with h | h
        · exact List.mem_append_left _ ((ih b).mpr ⟨h, hb0⟩)
        · have hb : b = c := List.mem_singleton.mp h
          subst hb
          exact List.mem_append_right _ (List.mem_singleton.mpr rfl)

lemma nodup_firstSeen (L : List Nat) : (firstSeen L).Nodup := by
  induction L using List.reverseRecOn with
  | nil => simp [firstSeen]
  | append_singleton P c ih =>
    rw [firstSeen_append]
    split_ifs with h
    · exact ih
    · push_neg at h
      refine List.Nodup.append ih (List.nodup_singleton c) ?_
      intro a ha hac
      rw [List.mem_singleton] at hac
      subst hac
      exact h.2 ha

lemma count_snoc_self (P : List Nat) (b : Nat) :
    (P ++ [b]).count b = P.count b + 1 := by
  rw [List.count_append]
  simp

lemma count_snoc_ne (P : List Nat) {b t : Nat} (h : t ≠ b) :
    (P ++ [b]).count t = P.count t := by
  rw [List.count_append]
  simp [List.count_singleton', h]

lemma dsBump_none (ts : List (Nat × Nat)) (b : Nat)
    (h : ∀ t ∈ ts, t.1 ≠ b) : dsBump ts b = none := by
  induction ts with
  | nil => rfl
  | cons t ts ih =>
    unfold dsBump
    rw [if_neg (h t (List.mem_cons_self t ts)),
      ih (fun u hu => h u (List.mem_cons_of_mem t hu))]

lemma dsBump_map_inc (T : List Nat) (cnt : Nat → Nat) (b : Nat)
    (hb : b ∈ T) (hnd : T.Nodup) :
    dsBump (T.map (fun t => (t, cnt t))) b =
      some (T.map (fun t => (t, if t = b then cnt t + 1 else cnt t))) := by
  induction T with
  | nil => cases hb
  | cons t T ih =>
    rw [List.map_cons, List.map_cons]
    unfold dsBump
    dsimp only
    by_cases ht : t = b
    · rw [if_pos ht, if_pos ht]
      have htail : T.map (fun u => (u, if u = b then cnt u + 1 else cnt u)) =
          T.map (fun u => (u, cnt u)) := by
        apply List.map_congr_left
        intro u hu
        have hut : u ≠ t := fun h => (List.nodup_cons.mp hnd).1 (h ▸ hu)
        rw [if_neg (fun h => hut (h.trans ht.symm))]
      rw [htail]
    · rw [if_neg ht]
      have hbT : b ∈ T := by
        rcases List.mem_cons.mp hb with h | h
        · exact absurd h.symm ht
        · exact h
      rw [ih hbT (List.nodup_cons.mp hnd).2, if_neg ht]

lemma ds_scan (L : List Nat) :
    L.foldl dsStep (0, []) =
      (L.count 0, ((firstSeen L).take 4).map (fun t => (t, L.count t))) := by
  induction L using List.reverseRecOn with
  | nil => rfl
  | append_singleton P b ih =>
    rw [List.foldl_append, List.foldl_cons, List.foldl_nil, ih]
    unfold dsStep
    by_cases hb0 : b = 0
    · subst hb0
      rw [if_pos rfl]
      dsimp only
      rw [firstSeen_append, if_pos (Or.inl rfl), count_snoc_self]
      have hmap : ((firstSeen P).take 4).map (fun t => (t, (P ++ [0]).count t)) =
          ((firstSeen P).take 4).map (fun t => (t, P.count t)) := by
        apply List.map_congr_left
        intro t ht
        have ht' : t ≠ 0 := ((mem_firstSeen P t).mp (List.mem_of_mem_take ht)).2
        rw [count_snoc_ne P ht']
      rw [hmap]
    · rw [if_neg hb0]
      dsimp only
      have hnd4 : ((firstSeen P).take 4).Nodup :=
        List.Nodup.sublist (List.take_sublist 4 _) (nodup_firstSeen P)
      have hc0 : (P ++ [b]).count 0 = P.count 0 :=
        count_snoc_ne P (fun h => hb0 h.symm)
      by_cases hmem : b ∈ (firstSeen P).take 4
      · rw [dsBump_map_inc _ P.count b hmem hnd4]
        dsimp only
        rw [firstSeen_append, if_pos (Or.inr (List.mem_of_mem_take hmem)), hc0]
        have hmap : ((firstSeen P).take 4).map (fun t => (t, (P ++ [b]).count t)) =
            ((firstSeen P).take 4).map
              (fun t => (t, if t = b then P.count t + 1 else P.count t)) := by
          apply List.map_congr_left
          intro t ht
          by_cases htb : t = b
          · subst htb
            rw [if_pos rfl, count_snoc_self]
          · rw [if_neg htb, count_snoc_ne P htb]
        rw [hmap]
      · have hnone : dsBump (((firstSeen P).take 4).map (fun t => (t, P.count t))) b =
            none := by
          apply dsBump_none
          intro t htm
          obtain ⟨u, hu, rfl⟩ := List.mem_map.mp htm
          exact fun h => hmem (h ▸ hu)
        rw [hnone]
        dsimp only
        rw [List.length_map]
        by_cases hbfs : b ∈ firstSeen P
        · have h4 : ((firstSeen P).take 4).length = 4 := by
            rw [List.length_take]
            rcases le_or_lt (firstSeen P).length 4 with h | h
            · exact absurd (by rw [List.take_of_length_le h]; exact hbfs) hmem
            · omega
          rw [if_neg (by omega : ¬ ((firstSeen P).take 4).length < 4),
            firstSeen_append, if_pos (Or.inr hbfs), hc0]
          have hmap : ((firstSeen P).take 4).map (fun t => (t, (P ++ [b]).count t)) =
              ((firstSeen P).take 4).map (fun t => (t, P.count t)) := by
            apply List.map_congr_left
            intro t ht
            exact congrArg _ (count_snoc_ne P (fun h => hmem (h ▸ ht)))
          rw [hmap]
        · have hbP : b ∉ P := fun h => hbfs ((mem_firstSeen P b).mpr ⟨h, hb0⟩)
          have hno : ¬ (b = 0 ∨ b ∈ firstSeen P) := by
            push_neg
            exact ⟨hb0, hbfs⟩
          rw [firstSeen_append, if_neg hno]
          have hmap : ∀ Q : List Nat, (∀ t ∈ Q, t ≠ b) →
              Q.map (fun t => (t, (P ++ [b]).count t)) =
                Q.map (fun t => (t, P.count t)) := by
            intro Q hQ
            apply List.map_congr_left
            intro t ht
            exact congrArg _ (count_snoc_ne P (hQ t ht))
          by_cases hlen : ((firstSeen P).take 4).length < 4
          · rw [if_pos hlen]
            have hfsl : (firstSeen P).length < 4 := by
              rw [List.length_take] at hlen
              omega
            have hTfs : (firstSeen P).take 4 = firstSeen P :=
              List.take_of_length_le (by omega)
            rw [List.take_of_length_le
                (show (firstSeen P ++ [b]).length ≤ 4 from by
                  rw [List.length_append, List.length_singleton]; omega),
              List.map_append, hTfs, hc0,
              hmap (firstSeen P) (fun t ht h => hbfs (h ▸ ht))]
            rw [List.map_singleton, count_snoc_self,
              List.count_eq_zero_of_not_mem hbP]
          · rw [if_neg hlen]
            have hfsl : 4 ≤ (firstSeen P).length := by
              rw [List.length_take] at hlen
              omega
            rw [List.take_append_of_le_length hfsl, hc0,
              hmap ((firstSeen P).take 4) (fun t ht h => hmem (h ▸ ht))]

lemma bestFold_const (ps : List (Nat × Nat)) (m : Nat × Nat)
    (h : ∀ t ∈ ps, t.2 ≤ m.2) : ps.foldl bestStep m = m := by
  induction ps with
  | nil => rfl
  | cons p ps ih =>
    rw [List.foldl_cons]
    have hp : bestStep m p = m := by
      unfold bestStep
      rw [if_neg (by have := h p (List.mem_cons_self p ps); omega)]
    rw [hp]
    exact ih (fun t ht => h t (List.mem_cons_of_mem p ht))

lemma bestFold_split (ps₁ ps₂ : List (Nat × Nat)) (p acc : Nat × Nat)
    (hacc : acc.2 < p.2)
    (h1 : ∀ q ∈ ps₁, q.2 < p.2) (h2 : ∀ q ∈ ps₂, q.2 ≤ p.2) :
    (ps₁ ++ p :: ps₂).foldl bestStep acc = p := by
  induction ps₁ generalizing acc with
  | nil =>
    rw [List.nil_append, List.foldl_cons]
    have hp : bestStep acc p = p := by
      unfold bestStep
      rw [if_pos hacc]
    rw [hp]
    exact bestFold_const ps₂ p h2
  | cons q qs ih =>
    rw [List.cons_append, List.foldl_cons]
    apply ih
    · unfold bestStep
      split_ifs with hq
      · exact h1 q (List.mem_cons_self q qs)
      · exact hacc
    · exact fun r hr => h1 r (List.mem_cons_of_mem q hr)

/-- C8 (amended): for every input, scale and cell: the cell is air exactly
when strictly more than half its voxels are air; otherwise the value is
the first type among the tracked ones (the first at most 4 distinct
non-air types in scan order) whose total occurrence count in the cell
strictly exceeds every earlier tracked type's and is at least every later
tracked type's.  Occurrences of distinct types beyond the cap of 4 are
ignored entirely (they are neither candidates nor counted as air). -/
theorem C8_amended (voxels : Nat → Nat) (gx gy gz s : Nat) :
    (s * s * s / 2 < (cellBlocks voxels gx gy gz s).count 0 →
      downsample_cell voxels gx gy gz s = 0) ∧
    (¬ s * s * s / 2 < (cellBlocks voxels gx gy gz s).count 0 →
      (firstSeen (cellBlocks voxels gx gy gz s)).take 4 = [] →
      downsample_cell voxels gx gy gz s = 0) ∧
    (¬ s * s * s / 2 < (cellBlocks voxels gx gy gz s).count 0 →
      ∀ T₁ t T₂,
        (firstSeen (cellBlocks voxels gx gy gz s)).take 4 = T₁ ++ t :: T₂ →
        (∀ u ∈ T₁, (cellBlocks voxels gx gy gz s).count u <
          (cellBlocks voxels gx gy gz s).count t) →
        (∀ u ∈ T₂, (cellBlocks voxels gx gy gz s).count u ≤
          (cellBlocks voxels gx gy gz s).count t) →
        downsample_cell voxels gx gy gz s = t) := by
  have hsc := ds_scan (cellBlocks voxels gx gy gz s)
  unfold downsample_cell
  rw [hsc]
  dsimp only
  refine ⟨fun hair => ?_, fun hnair hT => ?_, fun hnair T₁ t T₂ hsplit h1 h2 => ?_⟩
  · rw [if_pos hair]
  · rw [if_neg hnair, hT]
    rfl
  · rw [if_neg hnair, hsplit, List.map_append, List.map_cons]
    have htmem : t ∈ cellBlocks voxels gx gy gz s := by
      have ht4 : t ∈ (firstSeen (cellBlocks voxels gx gy gz s)).take 4 := by
        rw [hsplit]
        exact List.mem_append_right _ (List.mem_cons_self _ _)
      exact ((mem_firstSeen _ t).mp (List.mem_of_mem_take ht4)).1
    have hpos : 0 < (cellBlocks voxels gx gy gz s).count t :=
      List.count_pos_iff.mpr htmem
    rw [bestFold_split (T₁.map (fun u => (u, (cellBlocks voxels gx gy gz s).count u)))
      (T₂.map (fun u => (u, (cellBlocks voxels gx gy gz s).count u)))
      (t, (cellBlocks voxels gx gy gz s).count t) (0, 0) hpos
      (fun q hq => by
        obtain ⟨u, hu, rfl⟩ := List.mem_map.mp hq
        exact h1 u hu)
      (fun q hq => by
        obtain ⟨u, hu, rfl⟩ := List.mem_map.mp hq
        exact h2 u hu)]

/-- Witness for `C8_amended`: at the counterexample input the argmax
characterization yields block 1 (tracked types `[1,2,3,4]`, all tallies
1, first wins). -/
theorem C8_amended_witness :
    downsample_cell c8voxels 0 0 0 2 = 1 :=
  (C8_amended c8voxels 0 0 0 2).2.2 (by decide) [] 1 [2, 3, 4] (by decide)
    (by decide) (by decide)

lemma applyCandB_eq_S (opq : Nat → Nat → Nat → Bool) (st : LState)
    (c : (Nat × Nat × Nat) × Nat) : applyCandB opq st c = applyCandS opq st c := by
  unfold applyCandB applyCandS
  by_cases h1 : 32 ≤ c.1.1 ∨ 32 ≤ c.1.2.1 ∨ 32 ≤ c.1.2.2
  · rw [if_pos h1, if_pos h1]
  · rw [if_neg h1, if_neg h1]
    by_cases h2 : c.2 = 0
    · rw [if_pos h2]
      by_cases h3 : opq c.1.1 c.1.2.1 c.1.2.2
      · rw [if_pos h3]
      · rw [if_neg h3, if_neg (by omega : ¬ st.result c.1.1 c.1.2.1 c.1.2.2 < c.2)]
    · rw [if_neg h2]

lemma applyS_mono (opq : Nat → Nat → Nat → Bool) (st : LState)
    (c : (Nat × Nat × Nat) × Nat) (x y z : Nat) :
    st.result x y z ≤ (applyCandS opq st c).result x y z := by
  unfold applyCandS
  split_ifs with h1 h2 h3 h4
  · exact le_refl _
  · exact le_refl _
  · exact le_refl _
  · dsimp only
    by_cases he : x = c.1.1 ∧ y = c.1.2.1 ∧ z = c.1.2.2
    · rw [if_pos he]
      obtain ⟨e1, e2, e3⟩ := he
      subst e1; subst e2; subst e3
      omega
    · rw [if_neg he]
  · exact le_refl _

lemma applyS_queue (opq : Nat → Nat → Nat → Bool) (st : LState)
    (c : (Nat × Nat × Nat) × Nat) (q : Nat × Nat × Nat) (hq : q ∈ st.queue) :
    q ∈ (applyCandS opq st c).queue := by
  unfold applyCandS
  split_ifs <;> first
    | exact hq
    | exact List.mem_append_left _ hq

lemma applyS_queue_new (opq : Nat → Nat → Nat → Bool) (st : LState)
    (c : (Nat × Nat × Nat) × Nat) (q : Nat × Nat × Nat)
    (hq : q ∈ (applyCandS opq st c).queue) :
    q ∈ st.queue ∨ (q.1 < 32 ∧ q.2.1 < 32 ∧ q.2.2 < 32 ∧
      opq q.1 q.2.1 q.2.2 = false) := by
  unfold applyCandS at hq
  split_ifs at hq with h1 h2 h3 h4
  · exact Or.inl hq
  · exact Or.inl hq
  · exact Or.inl hq
  · rcases List.mem_append.mp hq with h | h
    · exact Or.inl h
    · right
      have he : q = c.1 := List.mem_singleton.mp h
      subst he
      push_neg at h1
      exact ⟨by omega, by omega, by omega, Bool.eq_false_iff.mpr h3⟩
  · exact Or.inl hq

lemma applyS_frame (opq : Nat → Nat → Nat → Bool) (st : LState)
    (c : (Nat × Nat × Nat) × Nat) (x y z : Nat)
    (hne : ¬ (x = c.1.1 ∧ y = c.1.2.1 ∧ z = c.1.2.2)) :
    (applyCandS opq st c).result x y z = st.result x y z := by
  unfold applyCandS
  split_ifs <;> first
    | rfl
    | exact if_neg hne

lemma applyS_changed (opq : Nat → Nat → Nat → Bool) (st : LState)
    (c : (Nat × Nat × Nat) × Nat) (q : Nat × Nat × Nat)
    (h : (applyCandS opq st c).result q.1 q.2.1 q.2.2 ≠ st.result q.1 q.2.1 q.2.2) :
    q ∈ (applyCandS opq st c).queue := by
  by_cases he : q.1 = c.1.1 ∧ q.2.1 = c.1.2.1 ∧ q.2.2 = c.1.2.2
  · have hq : q = c.1 := by
      obtain ⟨e1, e2, e3⟩ := he
      exact Prod.ext e1 (Prod.ext e2 e3)
    unfold applyCandS at h ⊢
    split_ifs at h ⊢ with h1 h2 h3 h4
    all_goals first
      | exact absurd rfl h
      | exact List.mem_append_right _ (List.mem_singleton.mpr hq)
  · exact absurd (applyS_frame opq st c q.1 q.2.1 q.2.2 he) h

lemma applyS_geq (opq : Nat → Nat → Nat → Bool) (st : LState)
    (n : Nat × Nat × Nat) (v : Nat)
    (hin : n.1 < 32 ∧ n.2.1 < 32 ∧ n.2.2 < 32) (hop : opq n.1 n.2.1 n.2.2 = false)
    (hv : v ≠ 0) :
    v ≤ (applyCandS opq st (n, v)).result n.1 n.2.1 n.2.2 := by
  unfold applyCandS
  rw [if_neg (by dsimp only; omega), if_neg (by dsimp only; exact hv),
    if_neg (by dsimp only; rw [hop]; exact Bool.false_ne_true)]
  by_cases h4 : st.result n.1 n.2.1 n.2.2 < v
  · rw [if_pos h4]
    dsimp only
    rw [if_pos ⟨rfl, rfl, rfl⟩]
  · rw [if_neg h4]
    omega

lemma applyS_le_ub (opq : Nat → Nat → Nat → Bool) (st : LState)
    (c : (Nat × Nat × Nat) × Nat) (ub : Nat → Nat → Nat → Nat)
    (hc : c.1.1 < 32 → c.1.2.1 < 32 → c.1.2.2 < 32 →
      opq c.1.1 c.1.2.1 c.1.2.2 = false → c.2 ≤ ub c.1.1 c.1.2.1 c.1.2.2)
    (hst : ∀ x y z, x < 32 → y < 32 → z < 32 → opq x y z = false →
      st.result x y z ≤ ub x y z)
    (x y z : Nat) (hx : x < 32) (hy : y < 32) (hz : z < 32)
    (ho : opq x y z = false) :
    (applyCandS opq st c).result x y z ≤ ub x y z := by
  unfold applyCandS
  split_ifs with h1 h2 h3 h4
  · exact hst x y z hx hy hz ho
  · exact hst x y z hx hy hz ho
  · exact hst x y z hx hy hz ho
  · dsimp only
    by_cases he : x = c.1.1 ∧ y = c.1.2.1 ∧ z = c.1.2.2
    · rw [if_pos he]
      obtain ⟨e1, e2, e3⟩ := he
      subst e1; subst e2; subst e3
      exact hc hx hy hz ho
    · rw [if_neg he]
      exact hst x y z hx hy hz ho
  · exact hst x y z hx hy hz ho

lemma mem_allPos (p : Nat × Nat × Nat) :
    p ∈ allPos ↔ p.1 < 32 ∧ p.2.1 < 32 ∧ p.2.2 < 32 := by
  obtain ⟨x, y, z⟩ := p
  simp only [allPos, List.mem_flatMap, List.mem_map, List.mem_range]
  constructor
  · rintro ⟨a, ha, b, hb, c, hc, he⟩
    rw [Prod.mk.injEq, Prod.mk.injEq] at he
    obtain ⟨e1, e2, e3⟩ := he
    subst e1; subst e2; subst e3
    exact ⟨ha, hb, hc⟩
  · rintro ⟨hx, hy, hz⟩
    exact ⟨x, hx, y, hy, z, hz, rfl⟩

lemma applyS_zero (opq : Nat → Nat → Nat → Bool) (st : LState)
    (c : (Nat × Nat × Nat) × Nat)
    (h0 : ∀ x y z, (¬ (x < 32 ∧ y < 32 ∧ z < 32) ∨ opq x y z = true) →
      st.result x y z = 0)
    (x y z : Nat) (hxyz : ¬ (x < 32 ∧ y < 32 ∧ z < 32) ∨ opq x y z = true) :
    (applyCandS opq st c).result x y z = 0 := by
  unfold applyCandS
  split_ifs with h1 h2 h3 h4
  · exact h0 x y z hxyz
  · exact h0 x y z hxyz
  · exact h0 x y z hxyz
  · dsimp only
    by_cases he : x = c.1.1 ∧ y = c.1.2.1 ∧ z = c.1.2.2
    · exfalso
      obtain ⟨e1, e2, e3⟩ := he
      subst e1; subst e2; subst e3
      push_neg at h1
      rcases hxyz with h | h
      · exact h ⟨by omega, by omega, by omega⟩
      · rw [h] at h3
        exact h3 rfl
    · rw [if_neg he]
      exact h0 x y z hxyz
  · exact h0 x y z hxyz

lemma potSum_mono (res res' : Nat → Nat → Nat → Nat)
    (h : ∀ p ∈ allPos, res p.1 p.2.1 p.2.2 ≤ res' p.1 p.2.1 p.2.2) :
    potSum res' ≤ potSum res := by
  unfold potSum
  apply List.sum_le_sum
  intro p hp
  have := h p hp
  omega

lemma applyS_pot (opq : Nat → Nat → Nat → Bool) (st : LState)
    (c : (Nat × Nat × Nat) × Nat)
    (hub : ∀ x y z, x < 32 → y < 32 → z < 32 → st.result x y z ≤ 255)
    (hc2 : c.2 ≤ 255) :
    pot (applyCandS opq st c) ≤ pot st := by
  unfold applyCandS
  split_ifs with h1 h2 h3 h4
  · exact le_refl _
  · exact le_refl _
  · exact le_refl _
  · unfold pot potSum
    dsimp only
    push_neg at h1
    rw [List.length_append, List.length_singleton]
    have hlt : ((allPos.map (fun p =>
        255 - (if p.1 = c.1.1 ∧ p.2.1 = c.1.2.1 ∧ p.2.2 = c.1.2.2 then c.2
          else st.result p.1 p.2.1 p.2.2))).sum) <
        (allPos.map (fun p => 255 - st.result p.1 p.2.1 p.2.2)).sum := by
      apply List.sum_lt_sum
      · intro p _
        by_cases he : p.1 = c.1.1 ∧ p.2.1 = c.1.2.1 ∧ p.2.2 = c.1.2.2
        · rw [if_pos he]
          obtain ⟨e1, e2, e3⟩ := he
          rw [e1, e2, e3]
          omega
        · rw [if_neg he]
      · refine ⟨c.1, (mem_allPos c.1).mpr ⟨by omega, by omega, by omega⟩, ?_⟩
        rw [if_pos ⟨rfl, rfl, rfl⟩]
        have := hub c.1.1 c.1.2.1 c.1.2.2 (by omega) (by omega) (by omega)
        omega
    omega
  · exact le_refl _

lemma foldS_mono (opq : Nat → Nat → Nat → Bool) :
    ∀ (C : List ((Nat × Nat × Nat) × Nat)) (st : LState) (x y z : Nat),
    st.result x y z ≤ (C.foldl (applyCandS opq) st).result x y z := by
  intro C
  induction C with
  | nil => intro st x y z; exact le_refl _
  | cons c C ih =>
    intro st x y z
    rw [List.foldl_cons]
    exact le_trans (applyS_mono opq st c x y z) (ih _ x y z)

lemma foldS_queue (opq : Nat → Nat → Nat → Bool) :
    ∀ (C : List ((Nat × Nat × Nat) × Nat)) (st : LState) (q : Nat × Nat × Nat),
    q ∈ st.queue → q ∈ (C.foldl (applyCandS opq) st).queue := by
  intro C
  induction C with
  | nil => intro st q hq; exact hq
  | cons c C ih =>
    intro st q hq
    rw [List.foldl_cons]
    exact ih _ q (applyS_queue opq st c q hq)

lemma foldS_queue_new (opq : Nat → Nat → Nat → Bool) :
    ∀ (C : List ((Nat × Nat × Nat) × Nat)) (st : LState) (q : Nat × Nat × Nat),
    q ∈ (C.foldl (applyCandS opq) st).queue →
    q ∈ st.queue ∨ (q.1 < 32 ∧ q.2.1 < 32 ∧ q.2.2 < 32 ∧
      opq q.1 q.2.1 q.2.2 = false) := by
  intro C
  induction C with
  | nil => intro st q hq; exact Or.inl hq
  | cons c C ih =>
    intro st q hq
    rw [List.foldl_cons] at hq
    rcases ih _ q hq with h | h
    · exact applyS_queue_new opq st c q h
    · exact Or.inr h

lemma foldS_changed (opq : Nat → Nat → Nat → Bool) :
    ∀ (C : List ((Nat × Nat × Nat) × Nat)) (st : LState) (q : Nat × Nat × Nat),
    (C.foldl (applyCandS opq) st).result q.1 q.2.1 q.2.2 ≠ st.result q.1 q.2.1 q.2.2 →
    q ∈ (C.foldl (applyCandS opq) st).queue := by
  intro C
  induction C with
  | nil => intro st q hq; exact absurd rfl hq
  | cons c C ih =>
    intro st q hq
    rw [List.foldl_cons] at hq ⊢
    by_cases hch : (applyCandS opq st c).result q.1 q.2.1 q.2.2 =
        st.result q.1 q.2.1 q.2.2
    · apply ih
      rw [hch]
      exact hq
    · exact foldS_queue opq C _ q (applyS_changed opq st c q hch)

lemma foldS_frame (opq : Nat → Nat → Nat → Bool) :
    ∀ (C : List ((Nat × Nat × Nat) × Nat)) (st : LState) (x y z : Nat),
    (∀ c ∈ C, ¬ (x = c.1.1 ∧ y = c.1.2.1 ∧ z = c.1.2.2)) →
    (C.foldl (applyCandS opq) st).result x y z = st.result x y z := by
  intro C
  induction C with
  | nil => intro st x y z _; rfl
  | cons c C ih =>
    intro st x y z hne
    rw [List.foldl_cons, ih _ x y z (fun d hd => hne d (List.mem_cons_of_mem c hd)),
      applyS_frame opq st c x y z (hne c (List.mem_cons_self c C))]

lemma foldS_oblig (opq : Nat → Nat → Nat → Bool) :
    ∀ (C : List ((Nat × Nat × Nat) × Nat)) (st : LState)
      (n : Nat × Nat × Nat) (v : Nat), (n, v) ∈ C →
    n.1 < 32 → n.2.1 < 32 → n.2.2 < 32 → opq n.1 n.2.1 n.2.2 = false → v ≠ 0 →
    v ≤ (C.foldl (applyCandS opq) st).result n.1 n.2.1 n.2.2 := by
  intro C
  induction C with
  | nil => intro st n v h; cases h
  | cons c C ih =>
    intro st n v hmem hx hy hz ho hv
    rw [List.foldl_cons]
    rcases List.mem_cons.mp hmem with h | h
    · subst h
      exact le_trans (applyS_geq opq st n v ⟨hx, hy, hz⟩ ho hv)
        (foldS_mono opq C _ n.1 n.2.1 n.2.2)
    · exact ih _ n v h hx hy hz ho hv

lemma foldS_le_ub (opq : Nat → Nat → Nat → Bool)
    (ub : Nat → Nat → Nat → Nat) :
    ∀ (C : List ((Nat × Nat × Nat) × Nat)) (st : LState),
    (∀ c ∈ C, c.1.1 < 32 → c.1.2.1 < 32 → c.1.2.2 < 32 →
      opq c.1.1 c.1.2.1 c.1.2.2 = false → c.2 ≤ ub c.1.1 c.1.2.1 c.1.2.2) →
    (∀ x y z, x < 32 → y < 32 → z < 32 → opq x y z = false →
      st.result x y z ≤ ub x y z) →
    ∀ x y z, x < 32 → y < 32 → z < 32 → opq x y z = false →
      (C.foldl (applyCandS opq) st).result x y z ≤ ub x y z := by
  intro C
  induction C with
  | nil => intro st _ hst; exact hst
  | cons c C ih =>
    intro st hC hst
    rw [List.foldl_cons]
    exact ih _ (fun d hd => hC d (List.mem_cons_of_mem c hd))
      (applyS_le_ub opq st c ub (hC c (List.mem_cons_self c C)) hst)

lemma foldS_zero (opq : Nat → Nat → Nat → Bool) :
    ∀ (C : List ((Nat × Nat × Nat) × Nat)) (st : LState),
    (∀ x y z, (¬ (x < 32 ∧ y < 32 ∧ z < 32) ∨ opq x y z = true) →
      st.result x y z = 0) →
    ∀ x y z, (¬ (x < 32 ∧ y < 32 ∧ z < 32) ∨ opq x y z = true) →
      (C.foldl (applyCandS opq) st).result x y z = 0 := by
  intro C
  induction C with
  | nil => intro st h; exact h
  | cons c C ih =>
    intro st h
    rw [List.foldl_cons]
    exact ih _ (applyS_zero opq st c h)

lemma foldS_pot (opq : Nat → Nat → Nat → Bool) :
    ∀ (C : List ((Nat × Nat × Nat) × Nat)) (st : LState),
    (∀ x y z, x < 32 → y < 32 → z < 32 → st.result x y z ≤ 255) →
    (∀ c ∈ C, c.2 ≤ 255) →
    pot (C.foldl (applyCandS opq) st) ≤ pot st := by
  intro C
  induction C with
  | nil => intro st _ _; exact le_refl _
  | cons c C ih =>
    intro st hub hC
    rw [List.foldl_cons]
    have hub' : ∀ x y z, x < 32 → y < 32 → z < 32 →
        (applyCandS opq st c).result x y z ≤ 255 := by
      intro x y z hx hy hz
      unfold applyCandS
      split_ifs with h1 h2 h3 h4
      · exact hub x y z hx hy hz
      · exact hub x y z hx hy hz
      · exact hub x y z hx hy hz
      · dsimp only
        by_cases he : x = c.1.1 ∧ y = c.1.2.1 ∧ z = c.1.2.2
        · rw [if_pos he]
          exact hC c (List.mem_cons_self c C)
        · rw [if_neg he]
          exact hub x y z hx hy hz
      · exact hub x y z hx hy hz
    exact le_trans (ih _ hub' (fun d hd => hC d (List.mem_cons_of_mem c hd)))
      (applyS_pot opq st c hub (hC c (List.mem_cons_self c C)))

lemma skyCands_le (p : Nat × Nat × Nat) (cur : Nat) :
    ∀ c ∈ skyCands p cur, c.2 ≤ cur := by
  intro c hc
  simp only [skyCands, List.mem_cons, List.not_mem_nil, or_false] at hc
  rcases hc with h | h | h | h | h | h <;> (subst h; dsimp only) <;> omega

lemma blockCands_le (p : Nat × Nat × Nat) (nl : Nat) :
    ∀ c ∈ blockCands p nl, c.2 ≤ nl := by
  intro c hc
  simp only [blockCands, List.mem_cons, List.not_mem_nil, or_false] at hc
  rcases hc with h | h | h | h | h | h <;> (subst h; dsimp only) <;> omega

lemma InvL_cur_le (B : Nat) (opq : Nat → Nat → Nat → Bool) (st : LState)
    (h : InvL B opq st) (p : Nat × Nat × Nat) :
    st.result p.1 p.2.1 p.2.2 ≤ B := by
  by_cases hin : p.1 < 32 ∧ p.2.1 < 32 ∧ p.2.2 < 32
  · exact h.1 p.1 p.2.1 p.2.2 hin.1 hin.2.1 hin.2.2
  · rw [h.2 p.1 p.2.1 p.2.2 (Or.inl hin)]
    omega

lemma foldS_invL (B : Nat) (opq : Nat → Nat → Nat → Bool)
    (C : List ((Nat × Nat × Nat) × Nat)) (st : LState)
    (hC : ∀ c ∈ C, c.2 ≤ B) (h : InvL B opq st) :
    InvL B opq (C.foldl (applyCandS opq) st) := by
  constructor
  · intro x y z hx hy hz
    by_cases ho : opq x y z = true
    · rw [foldS_zero opq C st h.2 x y z (Or.inr ho)]
      omega
    · exact foldS_le_ub opq (fun _ _ _ => B) C st
        (fun c hc _ _ _ _ => hC c hc) (fun x y z _ _ _ _ => h.1 x y z ‹_› ‹_› ‹_›)
        x y z hx hy hz (Bool.eq_false_iff.mpr ho)
  · exact foldS_zero opq C st h.2

lemma skyStep_invL (B : Nat) (opq : Nat → Nat → Nat → Bool) (st : LState)
    (h : InvL B opq st) : InvL B opq (skyStep opq st) := by
  unfold skyStep
  cases hq : st.queue with
  | nil => exact h
  | cons p rest =>
    exact foldS_invL B opq _ _
      (fun c hc => le_trans (skyCands_le p _ c hc) (InvL_cur_le B opq st h p)) h

lemma skyStep_mono (opq : Nat → Nat → Nat → Bool) (st : LState) (x y z : Nat) :
    st.result x y z ≤ (skyStep opq st).result x y z := by
  obtain ⟨res, queue⟩ := st
  cases queue with
  | nil => exact le_refl _
  | cons p rest =>
    exact foldS_mono opq (skyCands p (res p.1 p.2.1 p.2.2)) ⟨res, rest⟩ x y z

lemma skyStep_pot (opq : Nat → Nat → Nat → Bool) (st : LState)
    (h : InvL 255 opq st) (hq : st.queue ≠ []) :
    pot (skyStep opq st) < pot st := by
  obtain ⟨res, queue⟩ := st
  cases queue with
  | nil => exact absurd rfl hq
  | cons p rest =>
    have hbase : pot (⟨res, rest⟩ : LState) + 1 = pot (⟨res, p :: rest⟩ : LState) := by
      unfold pot
      dsimp only
      rw [List.length_cons]
      ring
    have hfold := foldS_pot opq (skyCands p (res p.1 p.2.1 p.2.2)) ⟨res, rest⟩
      (fun x y z hx hy hz => h.1 x y z hx hy hz)
      (fun c hc => le_trans (skyCands_le p _ c hc)
        (InvL_cur_le 255 opq ⟨res, p :: rest⟩ h p))
    show pot ((skyCands p (res p.1 p.2.1 p.2.2)).foldl (applyCandS opq)
      ⟨res, rest⟩) < pot (⟨res, p :: rest⟩ : LState)
    omega

lemma applyCandB_fun_eq (opq : Nat → Nat → Nat → Bool) :
    applyCandB opq = applyCandS opq :=
  funext (fun st => funext (fun c => applyCandB_eq_S opq st c))

lemma blockStep_invL (B : Nat) (opq : Nat → Nat → Nat → Bool) (st : LState)
    (h : InvL B opq st) : InvL B opq (blockStep opq st) := by
  obtain ⟨res, queue⟩ := st
  cases queue with
  | nil => exact h
  | cons p rest =>
    show InvL B opq (if res p.1 p.2.1 p.2.2 ≤ 1 then (⟨res, rest⟩ : LState)
      else (blockCands p (res p.1 p.2.1 p.2.2 - 1)).foldl (applyCandB opq)
        ⟨res, rest⟩)
    split_ifs with hcur
    · exact h
    · rw [applyCandB_fun_eq]
      exact foldS_invL B opq (blockCands p (res p.1 p.2.1 p.2.2 - 1)) ⟨res, rest⟩
        (fun c hc => le_trans (blockCands_le p _ c hc)
          (le_trans (Nat.sub_le _ _)
            (InvL_cur_le B opq ⟨res, p :: rest⟩ h p))) h

lemma blockStep_mono (opq : Nat → Nat → Nat → Bool) (st : LState) (x y z : Nat) :
    st.result x y z ≤ (blockStep opq st).result x y z := by
  obtain ⟨res, queue⟩ := st
  cases queue with
  | nil => exact le_refl _
  | cons p rest =>
    show res x y z ≤ (if res p.1 p.2.1 p.2.2 ≤ 1 then (⟨res, rest⟩ : LState)
      else (blockCands p (res p.1 p.2.1 p.2.2 - 1)).foldl (applyCandB opq)
        ⟨res, rest⟩).result x y z
    split_ifs with hcur
    · exact le_refl _
    · rw [applyCandB_fun_eq]
      exact foldS_mono opq (blockCands p (res p.1 p.2.1 p.2.2 - 1)) ⟨res, rest⟩ x y z

lemma blockStep_pot (opq : Nat → Nat → Nat → Bool) (st : LState)
    (h : InvL 255 opq st) (hq : st.queue ≠ []) :
    pot (blockStep opq st) < pot st := by
  obtain ⟨res, queue⟩ := st
  cases queue with
  | nil => exact absurd rfl hq
  | cons p rest =>
    have hbase : pot (⟨res, rest⟩ : LState) + 1 = pot (⟨res, p :: rest⟩ : LState) := by
      unfold pot
      dsimp only
      rw [List.length_cons]
      ring
    show pot (if res p.1 p.2.1 p.2.2 ≤ 1 then (⟨res, rest⟩ : LState)
      else (blockCands p (res p.1 p.2.1 p.2.2 - 1)).foldl (applyCandB opq)
        ⟨res, rest⟩) < pot (⟨res, p :: rest⟩ : LState)
    split_ifs with hcur
    · omega
    · rw [applyCandB_fun_eq]
      have hfold := foldS_pot opq (blockCands p (res p.1 p.2.1 p.2.2 - 1))
        ⟨res, rest⟩ (fun x y z hx hy hz => h.1 x y z hx hy hz)
        (fun c hc => le_trans (blockCands_le p _ c hc)
          (le_trans (Nat.sub_le _ _)
            (InvL_cur_le 255 opq ⟨res, p :: rest⟩ h p)))
      omega

lemma runWith_drain (step : LState → LState) (Pinv : LState → Prop)
    (hstep_inv : ∀ st, Pinv st → Pinv (step st))
    (hstep_pot : ∀ st, Pinv st → st.queue ≠ [] → pot (step st) < pot st) :
    ∀ fuel st, Pinv st → pot st ≤ fuel → (runWith step fuel st).queue = [] := by
  intro fuel
  induction fuel with
  | zero =>
    intro st _ hpot
    unfold runWith
    have : st.queue.length = 0 := by
      unfold pot at hpot
      omega
    exact List.length_eq_zero.mp this
  | succ n ih =>
    intro st hinv hpot
    unfold runWith
    by_cases hq : st.queue = []
    · rw [if_pos hq]
      exact hq
    · rw [if_neg hq]
      exact ih (step st) (hstep_inv st hinv)
        (by have := hstep_pot st hinv hq; omega)

lemma runWith_inv (step : LState → LState) (Pinv : LState → Prop)
    (hstep_inv : ∀ st, Pinv st → Pinv (step st)) :
    ∀ fuel st, Pinv st → Pinv (runWith step fuel st) := by
  intro fuel
  induction fuel with
  | zero => intro st h; exact h
  | succ n ih =>
    intro st hinv
    unfold runWith
    by_cases hq : st.queue = []
    · rw [if_pos hq]
      exact hinv
    · rw [if_neg hq]
      exact ih (step st) (hstep_inv st hinv)

lemma runWith_mono (step : LState → LState)
    (hstep_mono : ∀ st x y z, st.result x y z ≤ (step st).result x y z) :
    ∀ fuel st x y z, st.result x y z ≤ (runWith step fuel st).result x y z := by
  intro fuel
  induction fuel with
  | zero => intro st x y z; exact le_refl _
  | succ n ih =>
    intro st x y z
    unfold runWith
    by_cases hq : st.queue = []
    · rw [if_pos hq]
    · rw [if_neg hq]
      exact le_trans (hstep_mono st x y z) (ih (step st) x y z)

lemma initLight_invL (grid : Nat → Nat → Nat → Nat)
    (opq : Nat → Nat → Nat → Bool) : InvL 255 opq (initLight grid opq) := by
  constructor
  · intro x y z _ _ _
    unfold initLight
    dsimp only
    split_ifs with h
    · have := Nat.mod_lt (grid x y z) (show 0 < 256 by norm_num)
      omega
    · omega
  · intro x y z h
    unfold initLight
    dsimp only
    rw [if_neg]
    rintro ⟨hx, hy, hz, _, ho⟩
    rcases h with h | h
    · exact h ⟨hx, hy, hz⟩
    · rw [h] at ho
      cases ho

lemma allPos_length : allPos.length = 32768 := by
  have hinner : ∀ x : Nat, ((List.range 32).flatMap fun y =>
      List.map (fun z => (x, y, z)) (List.range 32)).length = 1024 := by
    intro x
    simp [List.length_flatMap, Function.comp_def, List.map_const]
  simp [allPos, List.length_flatMap, Function.comp_def, hinner, List.map_const]

lemma potSum_le (res : Nat → Nat → Nat → Nat) : potSum res ≤ 255 * 32768 := by
  unfold potSum
  have h := List.sum_le_card_nsmul
    (allPos.map (fun p => 255 - res p.1 p.2.1 p.2.2)) 255
    (by
      intro v hv
      obtain ⟨p, _, rfl⟩ := List.mem_map.mp hv
      omega)
  rw [List.length_map, allPos_length, smul_eq_mul] at h
  omega

lemma pot_init_le (grid : Nat → Nat → Nat → Nat)
    (opq : Nat → Nat → Nat → Bool) : pot (initLight grid opq) ≤ FUEL := by
  unfold pot FUEL
  have h1 := potSum_le (initLight grid opq).result
  have h2 : (initLight grid opq).queue.length ≤ 32768 := by
    unfold initLight
    dsimp only
    calc (allPos.filter _).length ≤ allPos.length := List.length_filter_le _ _
      _ = 32768 := allPos_length
  omega

/-- C10: both propagation loops terminate for every initial (u8) light
grid and opacity mask — the queue of the fuelled loop is empty well
within the fuel bound, because a cell's result value only ever increases
and pops shrink the potential `2·Σ(255 - result) + |queue|`; the results
are monotone over the seeds, and when the grid honors the setters'
`min(15)` clamp, every result stays at most 15 (so sky light, despite
re-enqueues from its exit-free loop, drains too). -/
theorem C10_propagation_terminates (grid : Nat → Nat → Nat → Nat)
    (opq : Nat → Nat → Nat → Bool) :
    (propagate_sky_light grid opq).queue = [] ∧
    (propagate_block_light grid opq).queue = [] ∧
    (∀ x y z, (initLight grid opq).result x y z ≤
      (propagate_sky_light grid opq).result x y z) ∧
    (∀ x y z, (initLight grid opq).result x y z ≤
      (propagate_block_light grid opq).result x y z) ∧
    ((∀ x y z, grid x y z ≤ 15) →
      (∀ x y z, (propagate_sky_light grid opq).result x y z ≤ 15) ∧
      (∀ x y z, (propagate_block_light grid opq).result x y z ≤ 15)) := by
  have hinit := initLight_invL grid opq
  have hpotle := pot_init_le grid opq
  refine ⟨?_, ?_, ?_, ?_, ?_⟩
  · exact runWith_drain (skyStep opq) (InvL 255 opq)
      (fun st h => skyStep_invL 255 opq st h)
      (fun st h hq => skyStep_pot opq st h hq) FUEL _ hinit hpotle
  · exact runWith_drain (blockStep opq) (InvL 255 opq)
      (fun st h => blockStep_invL 255 opq st h)
      (fun st h hq => blockStep_pot opq st h hq) FUEL _ hinit hpotle
  · intro x y z
    exact runWith_mono (skyStep opq) (fun st => skyStep_mono opq st) FUEL _ x y z
  · intro x y z
    exact runWith_mono (blockStep opq) (fun st => blockStep_mono opq st) FUEL _ x y z
  · intro hg
    have hinit15 : InvL 15 opq (initLight grid opq) := by
      constructor
      · intro x y z _ _ _
        unfold initLight
        dsimp only
        split_ifs with h
        · rw [Nat.mod_eq_of_lt (by have := hg x y z; omega)]
          exact hg x y z
        · omega
      · exact (initLight_invL grid opq).2
    constructor
    · intro x y z
      have hfin := runWith_inv (skyStep opq) (InvL 15 opq)
        (fun st h => skyStep_invL 15 opq st h) FUEL _ hinit15
      by_cases hin : x < 32 ∧ y < 32 ∧ z < 32
      · exact hfin.1 x y z hin.1 hin.2.1 hin.2.2
      · show (runWith (skyStep opq) FUEL (initLight grid opq)).result x y z ≤ 15
        rw [hfin.2 x y z (Or.inl hin)]
        omega
    · intro x y z
      have hfin := runWith_inv (blockStep opq) (InvL 15 opq)
        (fun st h => blockStep_invL 15 opq st h) FUEL _ hinit15
      by_cases hin : x < 32 ∧ y < 32 ∧ z < 32
      · exact hfin.1 x y z hin.1 hin.2.1 hin.2.2
      · show (runWith (blockStep opq) FUEL (initLight grid opq)).result x y z ≤ 15
        rw [hfin.2 x y z (Or.inl hin)]
        omega

/-- Witness for `C10_propagation_terminates` at a concrete grid. -/
theorem C10_witness :
    (propagate_sky_light (fun _ _ _ => 0) (fun _ _ _ => false)).queue = [] ∧
    (propagate_block_light (fun _ _ _ => 0) (fun _ _ _ => false)).queue = [] ∧
    (∀ x y z, (initLight (fun _ _ _ => 0) (fun _ _ _ => false)).result x y z ≤
      (propagate_sky_light (fun _ _ _ => 0) (fun _ _ _ => false)).result x y z) ∧
    (∀ x y z, (initLight (fun _ _ _ => 0) (fun _ _ _ => false)).result x y z ≤
      (propagate_block_light (fun _ _ _ => 0) (fun _ _ _ => false)).result x y z) ∧
    ((∀ x y z : Nat, (0:Nat) ≤ 15) →
      (∀ x y z, (propagate_sky_light (fun _ _ _ => 0)
        (fun _ _ _ => false)).result x y z ≤ 15) ∧
      (∀ x y z, (propagate_block_light (fun _ _ _ => 0)
        (fun _ _ _ => false)).result x y z ≤ 15)) :=
  C10_propagation_terminates (fun _ _ _ => 0) (fun _ _ _ => false)

lemma wsub1_of_pos {x : Nat} (h : 0 < x) (h32 : x < 32) : wsub1 x = x - 1 := by
  unfold wsub1
  omega

lemma wsub1_oob {x : Nat} (h : x = 0) : 32 ≤ wsub1 x := by
  subst h
  unfold wsub1
  omega

lemma foldS_exact (opq : Nat → Nat → Nat → Bool)
    (C C₁ C₂ : List ((Nat × Nat × Nat) × Nat)) (st : LState)
    (n : Nat × Nat × Nat) (v : Nat)
    (hsplit : C = C₁ ++ (n, v) :: C₂)
    (hframe : ∀ c ∈ C₁ ++ C₂, ¬ (n.1 = c.1.1 ∧ n.2.1 = c.1.2.1 ∧ n.2.2 = c.1.2.2))
    (hx : n.1 < 32) (hy : n.2.1 < 32) (hz : n.2.2 < 32)
    (hop : opq n.1 n.2.1 n.2.2 = false) (hv0 : v ≠ 0)
    (hlt : st.result n.1 n.2.1 n.2.2 < v) :
    (C.foldl (applyCandS opq) st).result n.1 n.2.1 n.2.2 = v := by
  subst hsplit
  rw [List.foldl_append, List.foldl_cons]
  have h1 : (C₁.foldl (applyCandS opq) st).result n.1 n.2.1 n.2.2 =
      st.result n.1 n.2.1 n.2.2 :=
    foldS_frame opq C₁ st n.1 n.2.1 n.2.2
      (fun c hc => hframe c (List.mem_append_left _ hc))
  generalize hst1 : C₁.foldl (applyCandS opq) st = st1 at h1 ⊢
  have h2 : (applyCandS opq st1 (n, v)).result n.1 n.2.1 n.2.2 = v := by
    unfold applyCandS
    rw [if_neg (by dsimp only; omega), if_neg (by dsimp only; exact hv0),
      if_neg (by dsimp only; rw [hop]; exact Bool.false_ne_true),
      if_pos (by dsimp only; rw [h1]; exact hlt)]
    dsimp only
    rw [if_pos ⟨rfl, rfl, rfl⟩]
  rw [foldS_frame opq C₂ _ n.1 n.2.1 n.2.2
    (fun c hc => hframe c (List.mem_append_right _ hc)), h2]

lemma skyStep_mechanism (opq : Nat → Nat → Nat → Bool) (st : LState)
    (x y z : Nat) (rest : List (Nat × Nat × Nat))
    (hq : st.queue = (x, y, z) :: rest) (hx : x < 32) (hy : y < 32) (hz : z < 32) :
    (0 < y → opq x (y - 1) z = false →
      st.result x (y - 1) z < st.result x y z →
      (skyStep opq st).result x (y - 1) z = st.result x y z) ∧
    (y + 1 < 32 → opq x (y + 1) z = false →
      st.result x (y + 1) z < st.result x y z - 1 →
      (skyStep opq st).result x (y + 1) z = st.result x y z - 1) ∧
    (x + 1 < 32 → opq (x + 1) y z = false →
      st.result (x + 1) y z < st.result x y z - 1 →
      (skyStep opq st).result (x + 1) y z = st.result x y z - 1) ∧
    (0 < x → opq (x - 1) y z = false →
      st.result (x - 1) y z < st.result x y z - 1 →
      (skyStep opq st).result (x - 1) y z = st.result x y z - 1) ∧
    (z + 1 < 32 → opq x y (z + 1) = false →
      st.result x y (z + 1) < st.result x y z - 1 →
      (skyStep opq st).result x y (z + 1) = st.result x y z - 1) ∧
    (0 < z → opq x y (z - 1) = false →
      st.result x y (z - 1) < st.result x y z - 1 →
      (skyStep opq st).result x y (z - 1) = st.result x y z - 1) := by
  obtain ⟨res, queue⟩ := st
  dsimp only at hq
  subst hq
  dsimp only
  refine ⟨fun hy0 hop hlt => ?_, fun hyb hop hlt => ?_, fun hxb hop hlt => ?_,
    fun hx0 hop hlt => ?_, fun hzb hop hlt => ?_, fun hz0 hop hlt => ?_⟩
  · show ((skyCands (x, y, z) (res x y z)).foldl (applyCandS opq)
      ⟨res, rest⟩).result x (y - 1) z = res x y z
    refine foldS_exact opq _
      [((x + 1, y, z), res x y z - 1), ((wsub1 x, y, z), res x y z - 1),
       ((x, y + 1, z), res x y z - 1)]
      [((x, y, z + 1), res x y z - 1), ((x, y, wsub1 z), res x y z - 1)]
      ⟨res, rest⟩ (x, y - 1, z) (res x y z)
      (by simp [skyCands, wsub1_of_pos hy0 hy]) ?_ hx
      (show y - 1 < 32 by omega) hz hop (by omega) hlt
    intro c hc
    simp only [List.mem_append, List.mem_cons, List.not_mem_nil, or_false,
      or_assoc] at hc
    rcases hc with h | h | h | h | h <;> subst h <;> dsimp only <;>
      rintro ⟨e1, e2, e3⟩ <;> revert e1 e2 e3 <;>
      first
        | (unfold wsub1; omega)
        | omega
  · show ((skyCands (x, y, z) (res x y z)).foldl (applyCandS opq)
      ⟨res, rest⟩).result x (y + 1) z = res x y z - 1
    refine foldS_exact opq _
      [((x + 1, y, z), res x y z - 1), ((wsub1 x, y, z), res x y z - 1)]
      [((x, wsub1 y, z), res x y z),
       ((x, y, z + 1), res x y z - 1), ((x, y, wsub1 z), res x y z - 1)]
      ⟨res, rest⟩ (x, y + 1, z) (res x y z - 1)
      (by simp [skyCands]) ?_ hx hyb hz hop (by omega) hlt
    intro c hc
    simp only [List.mem_append, List.mem_cons, List.not_mem_nil, or_false,
      or_assoc] at hc
    rcases hc with h | h | h | h | h <;> subst h <;> dsimp only <;>
      rintro ⟨e1, e2, e3⟩ <;> revert e1 e2 e3 <;>
      first
        | (unfold wsub1; omega)
        | omega
  · show ((skyCands (x, y, z) (res x y z)).foldl (applyCandS opq)
      ⟨res, rest⟩).result (x + 1) y z = res x y z - 1
    refine foldS_exact opq _ []
      [((wsub1 x, y, z), res x y z - 1), ((x, y + 1, z), res x y z - 1),
       ((x, wsub1 y, z), res x y z),
       ((x, y, z + 1), res x y z - 1), ((x, y, wsub1 z), res x y z - 1)]
      ⟨res, rest⟩ (x + 1, y, z) (res x y z - 1)
      (by simp [skyCands]) ?_ hxb hy hz hop (by omega) hlt
    intro c hc
    simp only [List.mem_append, List.mem_cons, List.not_mem_nil, or_false,
      false_or, or_assoc] at hc
    rcases hc with h | h | h | h | h <;> subst h <;> dsimp only <;>
      rintro ⟨e1, e2, e3⟩ <;> revert e1 e2 e3 <;>
      first
        | (unfold wsub1; omega)
        | omega
  · show ((skyCands (x, y, z) (res x y z)).foldl (applyCandS opq)
      ⟨res, rest⟩).result (x - 1) y z = res x y z - 1
    refine foldS_exact opq _
      [((x + 1, y, z), res x y z - 1)]
      [((x, y + 1, z), res x y z - 1), ((x, wsub1 y, z), res x y z),
       ((x, y, z + 1), res x y z - 1), ((x, y, wsub1 z), res x y z - 1)]
      ⟨res, rest⟩ (x - 1, y, z) (res x y z - 1)
      (by simp [skyCands, wsub1_of_pos hx0 hx]) ?_
      (show x - 1 < 32 by omega) hy hz hop (by omega) hlt
    intro c hc
    simp only [List.mem_append, List.mem_cons, List.not_mem_nil, or_false,
      or_assoc] at hc
    rcases hc with h | h | h | h | h <;> subst h <;> dsimp only <;>
      rintro ⟨e1, e2, e3⟩ <;> revert e1 e2 e3 <;>
      first
        | (unfold wsub1; omega)
        | omega
  · show ((skyCands (x, y, z) (res x y z)).foldl (applyCandS opq)
      ⟨res, rest⟩).result x y (z + 1) = res x y z - 1
    refine foldS_exact opq _
      [((x + 1, y, z), res x y z - 1), ((wsub1 x, y, z), res x y z - 1),
       ((x, y + 1, z), res x y z - 1), ((x, wsub1 y, z), res x y z)]
      [((x, y, wsub1 z), res x y z - 1)]
      ⟨res, rest⟩ (x, y, z + 1) (res x y z - 1)
      (by simp [skyCands]) ?_ hx hy hzb hop (by omega) hlt
    intro c hc
    simp only [List.mem_append, List.mem_cons, List.not_mem_nil, or_false,
      or_assoc] at hc
    rcases hc with h | h | h | h | h <;> subst h <;> dsimp only <;>
      rintro ⟨e1, e2, e3⟩ <;> revert e1 e2 e3 <;>
      first
        | (unfold wsub1; omega)
        | omega
  · show ((skyCands (x, y, z) (res x y z)).foldl (applyCandS opq)
      ⟨res, rest⟩).result x y (z - 1) = res x y z - 1
    refine foldS_exact opq _
      [((x + 1, y, z), res x y z - 1), ((wsub1 x, y, z), res x y z - 1),
       ((x, y + 1, z), res x y z - 1), ((x, wsub1 y, z), res x y z),
       ((x, y, z + 1), res x y z - 1)] []
      ⟨res, rest⟩ (x, y, z - 1) (res x y z - 1)
      (by simp [skyCands, wsub1_of_pos hz0 hz]) ?_ hx hy
      (show z - 1 < 32 by omega) hop (by omega) hlt
    intro c hc
    simp only [List.mem_append, List.mem_cons, List.not_mem_nil, or_false,
      List.append_nil, or_assoc] at hc
    rcases hc with h | h | h | h | h <;> subst h <;> dsimp only <;>
      rintro ⟨e1, e2, e3⟩ <;> revert e1 e2 e3 <;>
      first
        | (unfold wsub1; omega)
        | omega

lemma skyCands_cell_ne_self (p : Nat × Nat × Nat) (cur : Nat)
    (hx : p.1 < 32) (hy : p.2.1 < 32) (hz : p.2.2 < 32) :
    ∀ c ∈ skyCands p cur,
      ¬ (p.1 = c.1.1 ∧ p.2.1 = c.1.2.1 ∧ p.2.2 = c.1.2.2) := by
  obtain ⟨x, y, z⟩ := p
  intro c hc
  dsimp only at hx hy hz ⊢
  simp only [skyCands, List.mem_cons, List.not_mem_nil, or_false, or_assoc] at hc
  rcases hc with h | h | h | h | h | h <;> subst h <;> dsimp only <;>
    rintro ⟨e1, e2, e3⟩ <;> revert e1 e2 e3 <;>
    first
      | (unfold wsub1; omega)
      | omega

lemma skyCands_mono (p : Nat × Nat × Nat) (cur cur' : Nat) (h : cur ≤ cur') :
    ∀ c ∈ skyCands p cur, ∃ c' ∈ skyCands p cur', c'.1 = c.1 ∧ c.2 ≤ c'.2 := by
  intro c hc
  simp only [skyCands, List.mem_cons, List.not_mem_nil, or_false, or_assoc] at hc
  rcases hc with h' | h' | h' | h' | h' | h' <;> subst h'
  · exact ⟨((p.1 + 1, p.2.1, p.2.2), cur' - 1), by simp [skyCands], rfl, by omega⟩
  · exact ⟨((wsub1 p.1, p.2.1, p.2.2), cur' - 1), by simp [skyCands], rfl, by omega⟩
  · exact ⟨((p.1, p.2.1 + 1, p.2.2), cur' - 1), by simp [skyCands], rfl, by omega⟩
  · exact ⟨((p.1, wsub1 p.2.1, p.2.2), cur'), by simp [skyCands], rfl, by omega⟩
  · exact ⟨((p.1, p.2.1, p.2.2 + 1), cur' - 1), by simp [skyCands], rfl, by omega⟩
  · exact ⟨((p.1, p.2.1, wsub1 p.2.2), cur' - 1), by simp [skyCands], rfl, by omega⟩

lemma skyStep_inv7 (opq : Nat → Nat → Nat → Bool)
    (ub : Nat → Nat → Nat → Nat) (hcl : ubClosed opq ub) (st : LState)
    (h : Inv7 opq ub st) : Inv7 opq ub (skyStep opq st) := by
  obtain ⟨res, queue⟩ := st
  obtain ⟨hub, hzero, hqent, hobl⟩ := h
  cases queue with
  | nil => exact ⟨hub, hzero, hqent, hobl⟩
  | cons p rest =>
    obtain ⟨hpx, hpy, hpz, hpop⟩ := hqent p (List.mem_cons_self p rest)
    show Inv7 opq ub ((skyCands p (res p.1 p.2.1 p.2.2)).foldl (applyCandS opq)
      ⟨res, rest⟩)
    refine ⟨?_, ?_, ?_, ?_⟩
    · apply foldS_le_ub opq ub _ ⟨res, rest⟩
      · intro c hc hcx hcy hcz hcop
        have hcur_le : res p.1 p.2.1 p.2.2 ≤ ub p.1 p.2.1 p.2.2 :=
          hub p.1 p.2.1 p.2.2 hpx hpy hpz hpop
        obtain ⟨c', hc', hcell, hle⟩ := skyCands_mono p _ _ hcur_le c hc
        have h2 := hcl p hpx hpy hpz hpop c' hc'
          (by rw [hcell]; exact hcx) (by rw [hcell]; exact hcy)
          (by rw [hcell]; exact hcz) (by rw [hcell]; exact hcop)
        rw [hcell] at h2
        exact le_trans hle h2
      · intro x y z hx hy hz ho
        exact hub x y z hx hy hz ho
    · exact foldS_zero opq _ ⟨res, rest⟩ hzero
    · intro q hq
      rcases foldS_queue_new opq _ ⟨res, rest⟩ q hq with hqin | hnew
      · exact hqent q (List.mem_cons_of_mem p hqin)
      · exact ⟨hnew.1, hnew.2.1, hnew.2.2.1, hnew.2.2.2⟩
    · intro q hqx hqy hqz hqop
      by_cases hqp : q = p
      · subst hqp
        right
        have hfr : ((skyCands q (res q.1 q.2.1 q.2.2)).foldl (applyCandS opq)
            ⟨res, rest⟩).result q.1 q.2.1 q.2.2 = res q.1 q.2.1 q.2.2 :=
          foldS_frame opq _ ⟨res, rest⟩ q.1 q.2.1 q.2.2
            (skyCands_cell_ne_self q _ hqx hqy hqz)
        intro c hc hcx hcy hcz hcop hc0
        rw [hfr] at hc
        exact foldS_oblig opq _ ⟨res, rest⟩ c.1 c.2
          (by rw [Prod.mk.eta]; exact hc) hcx hcy hcz hcop hc0
      · by_cases hqrest : q ∈ rest
        · left
          exact foldS_queue opq _ ⟨res, rest⟩ q hqrest
        · rcases hobl q hqx hqy hqz hqop with hqin | hqob
          · rcases List.mem_cons.mp hqin with h | h
            · exact absurd h hqp
            · exact absurd h hqrest
          · by_cases hch : ((skyCands p (res p.1 p.2.1 p.2.2)).foldl
                (applyCandS opq) ⟨res, rest⟩).result q.1 q.2.1 q.2.2 =
                res q.1 q.2.1 q.2.2
            · right
              intro c hc hcx hcy hcz hcop hc0
              rw [hch] at hc
              exact le_trans (hqob c hc hcx hcy hcz hcop hc0)
                (foldS_mono opq _ ⟨res, rest⟩ c.1.1 c.1.2.1 c.1.2.2)
            · left
              exact foldS_changed opq _ ⟨res, rest⟩ q hch

lemma initLight_inv7 (grid : Nat → Nat → Nat → Nat)
    (opq : Nat → Nat → Nat → Bool) (ub : Nat → Nat → Nat → Nat)
    (hseed : ∀ x y z, x < 32 → y < 32 → z < 32 → opq x y z = false →
      grid x y z % 256 ≤ ub x y z) :
    Inv7 opq ub (initLight grid opq) := by
  refine ⟨?_, (initLight_invL grid opq).2, ?_, ?_⟩
  · intro x y z hx hy hz ho
    show (if x < 32 ∧ y < 32 ∧ z < 32 ∧ 0 < grid x y z % 256 ∧ opq x y z = false
      then grid x y z % 256 else 0) ≤ ub x y z
    split_ifs with h
    · exact hseed x y z hx hy hz ho
    · omega
  · intro p hp
    have hsplit := List.mem_filter.mp hp
    obtain ⟨hmem, hcond⟩ := hsplit
    have hin := (mem_allPos p).mp hmem
    simp only [Bool.and_eq_true, decide_eq_true_eq, Bool.not_eq_true'] at hcond
    exact ⟨hin.1, hin.2.1, hin.2.2, hcond.2⟩
  · intro p hpx hpy hpz hpop
    by_cases hres : (initLight grid opq).result p.1 p.2.1 p.2.2 = 0
    · right
      intro c hc _ _ _ _ hc0
      rw [hres] at hc
      have := skyCands_le p 0 c hc
      omega
    · left
      show p ∈ allPos.filter (fun p =>
        decide (0 < grid p.1 p.2.1 p.2.2 % 256) && !(opq p.1 p.2.1 p.2.2))
      apply List.mem_filter.mpr
      refine ⟨(mem_allPos p).mpr ⟨hpx, hpy, hpz⟩, ?_⟩
      have hres' : (if p.1 < 32 ∧ p.2.1 < 32 ∧ p.2.2 < 32 ∧
          0 < grid p.1 p.2.1 p.2.2 % 256 ∧ opq p.1 p.2.1 p.2.2 = false
          then grid p.1 p.2.1 p.2.2 % 256 else 0) ≠ 0 := hres
      split_ifs at hres' with h
      · simp only [Bool.and_eq_true, decide_eq_true_eq, Bool.not_eq_true']
        exact ⟨h.2.2.2.1, h.2.2.2.2⟩
      · exact absurd rfl hres'

lemma c7opq_false_iff (xs zs yb x y z : Nat) :
    c7opq xs zs yb x y z = false ↔ (x = xs ∧ z = zs) ∧ ¬ y = yb := by
  simp [c7opq]

lemma c7ub_col (xs zs ys yb l x y z : Nat) (hx : x = xs) (hz : z = zs)
    (hy : ¬ y = yb) :
    c7ub xs zs ys yb l x y z =
      if y ≤ ys then (if yb < y then l else 0) else l - (y - ys) := by
  unfold c7ub
  have hcond : x = xs ∧ z = zs ∧ ¬ y = yb := ⟨hx, hz, hy⟩
  rw [if_pos hcond]

lemma c7_closed (xs zs ys yb l : Nat) (hyb : yb < ys) :
    ubClosed (c7opq xs zs yb) (c7ub xs zs ys yb l) := by
  rintro ⟨px, py, pz⟩ hpx hpy hpz hpop
  dsimp only at hpx hpy hpz hpop
  rw [c7opq_false_iff] at hpop
  obtain ⟨⟨hpxs, hpzs⟩, hpyb⟩ := hpop
  intro c hc hcx hcy hcz hcop
  simp only [skyCands, List.mem_cons, List.not_mem_nil, or_false, or_assoc] at hc
  rcases hc with h | h | h | h | h | h <;> subst h <;>
    dsimp only at hcx hcy hcz hcop ⊢ <;> rw [c7opq_false_iff] at hcop
  · have := hcop.1.1
    omega
  · rcases Nat.eq_zero_or_pos px with h0 | h0
    · exact absurd hcx (by have := wsub1_oob h0; omega)
    · rw [wsub1_of_pos h0 hpx] at hcop
      have := hcop.1.1
      omega
  · rw [c7ub_col xs zs ys yb l px py pz hpxs hpzs hpyb,
      c7ub_col xs zs ys yb l px (py + 1) pz hcop.1.1 hcop.1.2 hcop.2]
    split_ifs <;> omega
  · rcases Nat.eq_zero_or_pos py with h0 | h0
    · exact absurd hcy (by have := wsub1_oob h0; omega)
    · rw [wsub1_of_pos h0 hpy] at hcop ⊢
      rw [c7ub_col xs zs ys yb l px py pz hpxs hpzs hpyb,
        c7ub_col xs zs ys yb l px (py - 1) pz hcop.1.1 hcop.1.2 hcop.2]
      split_ifs <;> omega
  · have := hcop.1.2
    omega
  · rcases Nat.eq_zero_or_pos pz with h0 | h0
    · exact absurd hcz (by have := wsub1_oob h0; omega)
    · rw [wsub1_of_pos h0 hpz] at hcop
      have := hcop.1.2
      omega

/-- C7: sky-light propagation semantics.  First, the per-step mechanism
for any state about to process cell `(x,y,z)` with value `ℓ`: the `-Y`
neighbor receives the candidate `ℓ` undiminished while `+Y`, `±X` and
`±Z` receive `ℓ - 1`, each applied only when the neighbor is in bounds,
non-opaque and currently smaller.  Second, the S5 isolated-column
scenario with a single source `ℓ` at `(xs, ys, zs)` and a block at height
`yb < ys`: every open column cell at or below the source and above the
block ends with the full value `ℓ`, while the block and every cell it
shadows below end with no light at all. -/
theorem C7_sky_light (xs ys zs yb l : Nat) (hxs : xs < 32) (hzs : zs < 32)
    (hys : ys < 32) (hyb : yb < ys) (hl0 : 0 < l) (hl15 : l ≤ 15) :
    (∀ (opq : Nat → Nat → Nat → Bool) (st : LState) (x y z : Nat)
      (rest : List (Nat × Nat × Nat)),
      st.queue = (x, y, z) :: rest → x < 32 → y < 32 → z < 32 →
      ((0 < y → opq x (y - 1) z = false →
        st.result x (y - 1) z < st.result x y z →
        (skyStep opq st).result x (y - 1) z = st.result x y z) ∧
      (y + 1 < 32 → opq x (y + 1) z = false →
        st.result x (y + 1) z < st.result x y z - 1 →
        (skyStep opq st).result x (y + 1) z = st.result x y z - 1) ∧
      (x + 1 < 32 → opq (x + 1) y z = false →
        st.result (x + 1) y z < st.result x y z - 1 →
        (skyStep opq st).result (x + 1) y z = st.result x y z - 1) ∧
      (0 < x → opq (x - 1) y z = false →
        st.result (x - 1) y z < st.result x y z - 1 →
        (skyStep opq st).result (x - 1) y z = st.result x y z - 1) ∧
      (z + 1 < 32 → opq x y (z + 1) = false →
        st.result x y (z + 1) < st.result x y z - 1 →
        (skyStep opq st).result x y (z + 1) = st.result x y z - 1) ∧
      (0 < z → opq x y (z - 1) = false →
        st.result x y (z - 1) < st.result x y z - 1 →
        (skyStep opq st).result x y (z - 1) = st.result x y z - 1))) ∧
    (∀ y, yb < y → y ≤ ys →
      (propagate_sky_light (c7grid xs ys zs l) (c7opq xs zs yb)).result
        xs y zs = l) ∧
    (∀ y, y < yb →
      (propagate_sky_light (c7grid xs ys zs l) (c7opq xs zs yb)).result
        xs y zs = 0) ∧
    (propagate_sky_light (c7grid xs ys zs l) (c7opq xs zs yb)).result
      xs yb zs = 0 := by
  have hys_ne : ¬ ys = yb := by omega
  have hseed : ∀ x y z, x < 32 → y < 32 → z < 32 →
      c7opq xs zs yb x y z = false →
      c7grid xs ys zs l x y z % 256 ≤ c7ub xs zs ys yb l x y z := by
    intro x y z hx hy hz ho
    rw [c7opq_false_iff] at ho
    unfold c7grid
    split_ifs with hsrc
    · obtain ⟨e1, e2, e3⟩ := hsrc
      rw [Nat.mod_eq_of_lt (by omega),
        c7ub_col xs zs ys yb l x y z e1 e3 ho.2, if_pos (by omega),
        if_pos (by omega)]
    · simp
  have hinv7 : Inv7 (c7opq xs zs yb) (c7ub xs zs ys yb l)
      (propagate_sky_light (c7grid xs ys zs l) (c7opq xs zs yb)) :=
    runWith_inv (skyStep (c7opq xs zs yb)) _
      (fun st h => skyStep_inv7 _ _ (c7_closed xs zs ys yb l hyb) st h)
      FUEL _ (initLight_inv7 _ _ _ hseed)
  have hdrain : (propagate_sky_light (c7grid xs ys zs l)
      (c7opq xs zs yb)).queue = [] :=
    runWith_drain (skyStep (c7opq xs zs yb)) (InvL 255 (c7opq xs zs yb))
      (fun st h => skyStep_invL 255 _ st h) (fun st h hq => skyStep_pot _ st h hq)
      FUEL _ (initLight_invL _ _) (pot_init_le _ _)
  have hsrc_init : (initLight (c7grid xs ys zs l) (c7opq xs zs yb)).result
      xs ys zs = l := by
    have hcnd : xs < 32 ∧ ys < 32 ∧ zs < 32 ∧
        0 < c7grid xs ys zs l xs ys zs % 256 ∧
        c7opq xs zs yb xs ys zs = false := by
      refine ⟨hxs, hys, hzs, ?_, ?_⟩
      · unfold c7grid
        rw [if_pos ⟨rfl, rfl, rfl⟩, Nat.mod_eq_of_lt (by omega)]
        exact hl0
      · rw [c7opq_false_iff]
        exact ⟨⟨rfl, rfl⟩, hys_ne⟩
    show (if xs < 32 ∧ ys < 32 ∧ zs < 32 ∧
        0 < c7grid xs ys zs l xs ys zs % 256 ∧
        c7opq xs zs yb xs ys zs = false
      then c7grid xs ys zs l xs ys zs % 256 else 0) = l
    rw [if_pos hcnd]
    unfold c7grid
    rw [if_pos ⟨rfl, rfl, rfl⟩, Nat.mod_eq_of_lt (by omega)]
  have hchain : ∀ d, d ≤ ys - (yb + 1) →
      l ≤ (propagate_sky_light (c7grid xs ys zs l) (c7opq xs zs yb)).result
        xs (ys - d) zs := by
    intro d
    induction d with
    | zero =>
      intro _
      have := runWith_mono (skyStep (c7opq xs zs yb))
        (fun st => skyStep_mono _ st) FUEL
        (initLight (c7grid xs ys zs l) (c7opq xs zs yb)) xs ys zs
      rw [hsrc_init] at this
      simpa using this
    | succ d ih =>
      intro hd
      have hyd : yb + 2 ≤ ys - d := by omega
      have hcur := ih (by omega)
      have hobq := hinv7.2.2.2 (xs, ys - d, zs) hxs (by dsimp only; omega) hzs
        (by dsimp only; rw [c7opq_false_iff]; exact ⟨⟨rfl, rfl⟩, by omega⟩)
      rcases hobq with hin | hob
      · rw [hdrain] at hin
        cases hin
      · have hmem : ((xs, wsub1 (ys - d), zs),
            (propagate_sky_light (c7grid xs ys zs l) (c7opq xs zs yb)).result
              xs (ys - d) zs) ∈ skyCands (xs, ys - d, zs)
            ((propagate_sky_light (c7grid xs ys zs l)
              (c7opq xs zs yb)).result xs (ys - d) zs) := by
          simp [skyCands]
        have hw : wsub1 (ys - d) = ys - (d + 1) := by
          rw [wsub1_of_pos (by omega) (by omega)]
          omega
        have h2 := hob _ hmem (by dsimp only; exact hxs)
          (by dsimp only; rw [hw]; omega) (by dsimp only; exact hzs)
          (by dsimp only; rw [hw, c7opq_false_iff]
              exact ⟨⟨rfl, rfl⟩, by omega⟩)
          (by dsimp only; omega)
        dsimp only at h2
        rw [hw] at h2
        omega
  refine ⟨?_, ?_, ?_, ?_⟩
  · intro opq st x y z rest hq hx hy hz
    exact skyStep_mechanism opq st x y z rest hq hx hy hz
  · intro y hylb hyub
    have hyne : ¬ y = yb := by omega
    have hylt : y < 32 := by omega
    have hup := hinv7.1 xs y zs hxs hylt hzs
      (by rw [c7opq_false_iff]; exact ⟨⟨rfl, rfl⟩, hyne⟩)
    rw [c7ub_col xs zs ys yb l xs y zs rfl rfl hyne, if_pos hyub,
      if_pos hylb] at hup
    have hlo := hchain (ys - y) (by omega)
    rw [show ys - (ys - y) = y from by omega] at hlo
    omega
  · intro y hylt
    have hyne : ¬ y = yb := by omega
    have hup := hinv7.1 xs y zs hxs (by omega) hzs
      (by rw [c7opq_false_iff]; exact ⟨⟨rfl, rfl⟩, hyne⟩)
    rw [c7ub_col xs zs ys yb l xs y zs rfl rfl hyne, if_pos (by omega),
      if_neg (by omega : ¬ yb < y)] at hup
    omega
  · exact hinv7.2.1 xs yb zs (Or.inr (by simp [c7opq]))

/-- Witness for `C7_sky_light`: column `x = 0, z = 0`, source 15 at
`y = 5`, block at `y = 2`. -/
theorem C7_witness :
    (∀ (opq : Nat → Nat → Nat → Bool) (st : LState) (x y z : Nat)
      (rest : List (Nat × Nat × Nat)),
      st.queue = (x, y, z) :: rest → x < 32 → y < 32 → z < 32 →
      ((0 < y → opq x (y - 1) z = false →
        st.result x (y - 1) z < st.result x y z →
        (skyStep opq st).result x (y - 1) z = st.result x y z) ∧
      (y + 1 < 32 → opq x (y + 1) z = false →
        st.result x (y + 1) z < st.result x y z - 1 →
        (skyStep opq st).result x (y + 1) z = st.result x y z - 1) ∧
      (x + 1 < 32 → opq (x + 1) y z = false →
        st.result (x + 1) y z < st.result x y z - 1 →
        (skyStep opq st).result (x + 1) y z = st.result x y z - 1) ∧
      (0 < x → opq (x - 1) y z = false →
        st.result (x - 1) y z < st.result x y z - 1 →
        (skyStep opq st).result (x - 1) y z = st.result x y z - 1) ∧
      (z + 1 < 32 → opq x y (z + 1) = false →
        st.result x y (z + 1) < st.result x y z - 1 →
        (skyStep opq st).result x y (z + 1) = st.result x y z - 1) ∧
      (0 < z → opq x y (z - 1) = false →
        st.result x y (z - 1) < st.result x y z - 1 →
        (skyStep opq st).result x y (z - 1) = st.result x y z - 1))) ∧
    (∀ y, 2 < y → y ≤ 5 →
      (propagate_sky_light (c7grid 0 5 0 15) (c7opq 0 0 2)).result 0 y 0 = 15) ∧
    (∀ y, y < 2 →
      (propagate_sky_light (c7grid 0 5 0 15) (c7opq 0 0 2)).result 0 y 0 = 0) ∧
    (propagate_sky_light (c7grid 0 5 0 15) (c7opq 0 0 2)).result 0 2 0 = 0 :=
  C7_sky_light 0 5 0 2 15 (by decide) (by decide) (by decide) (by decide)
    (by decide) (by decide)
